import Mathlib

/-!
Verification development for the grid-search / contact-extraction system.

The Python sources are embedded shallowly:
* `EmailExtract` embeds the pure string pipeline of `backend/email_extractor.py`
  (`_clean_obfuscated_email`, `_is_basic_email_valid`, `_filter_and_clean_emails`);
  strings are modelled as `List Char` and Python's regexes by equivalent direct
  recursive matchers (explained at each definition).
* `Grid` embeds `backend/grid_calculator.py` over `ℝ` (Python floats are idealised
  as real numbers; `math.sin`/`cos`/`asin`/`sqrt` become the Mathlib functions).
* `Search` embeds `GridSearchEngine.search_grid` of `backend/search_engine.py` and
  `enrich_places_with_details` of `backend/places_api.py`.  The network boundaries
  (`nearby_search` HTTP call, `get_place_details` HTTP call, the page crawl of the
  email extractor) are taken as function parameters; a boundary call that may raise
  is modelled with `Except`.
-/

namespace EmailExtract

/-- Python `\s` on ASCII text: space, tab, newline, carriage return, vertical tab,
form feed.  (Non-ASCII unicode whitespace is not modelled.) -/
def isSpaceChar (c : Char) : Bool :=
  c = ' ' || c = '\t' || c = '\n' || c = '\r' || c = '\x0b' || c = '\x0c'

/-- Python `str.lower` on a list of characters. -/
def toLowerList (s : List Char) : List Char := s.map Char.toLower

/-- Python `str.strip`: drop leading and trailing whitespace. -/
def stripList (s : List Char) : List Char :=
  ((s.dropWhile isSpaceChar).reverse.dropWhile isSpaceChar).reverse

/-- Embeds `re.sub(r'\s+', '', email)`: removing every whitespace run is removing
every whitespace character. -/
def removeAllSpace (s : List Char) : List Char :=
  s.filter (fun c => !(isSpaceChar c))

/-- Case-insensitive "the input starts with the pattern" (the replacement patterns
are compiled with `re.IGNORECASE`). -/
def startsWithCI : List Char → List Char → Bool
  | [], _ => true
  | _ :: _, [] => false
  | p :: ps, c :: cs => (Char.toLower c = Char.toLower p) && startsWithCI ps cs

/-- One left-to-right pass of `re.sub(pattern, repl, s, flags=re.IGNORECASE)` for a
pattern that is a literal string (such as `\[at\]`): scan from the left, replace each
non-overlapping case-insensitive occurrence.  The `fuel` argument (instantiated with
the length of the input) only makes the recursion structural; each step consumes at
least one input character, so the fuel never runs out. -/
def replaceLitAux (pat repl : List Char) : Nat → List Char → List Char
  | 0, s => s
  | _ + 1, [] => []
  | fuel + 1, c :: cs =>
    if startsWithCI pat (c :: cs) then
      repl ++ replaceLitAux pat repl fuel (List.drop pat.length (c :: cs))
    else
      c :: replaceLitAux pat repl fuel cs

def replaceLit (pat repl s : List Char) : List Char :=
  replaceLitAux pat repl s.length s

/-- Matcher for the prefix language `\s+W\s+` (with `W` a literal word, matched
case-insensitively): one or more whitespace characters, the word, one or more
whitespace characters.  Returns the remainder after the (leftmost-greedy) match.
Both whitespace runs are taken maximal, which agrees with Python's backtracking
because `W` starts and ends with non-whitespace characters. -/
def spacedMatch (w : List Char) (s : List Char) : Option (List Char) :=
  let s1 := s.dropWhile isSpaceChar
  if s.length = s1.length then none
  else if startsWithCI w s1 then
    let s2 := List.drop w.length s1
    let s3 := s2.dropWhile isSpaceChar
    if s2.length = s3.length then none else some s3
  else none

/-- `re.sub(r'\s+W\s+', repl, s, flags=re.IGNORECASE)` by a left-to-right scan;
fuel as in `replaceLitAux`. -/
def replaceSpacedAux (w repl : List Char) : Nat → List Char → List Char
  | 0, s => s
  | _ + 1, [] => []
  | fuel + 1, c :: cs =>
    match spacedMatch w (c :: cs) with
    | some rest => repl ++ replaceSpacedAux w repl fuel rest
    | none => c :: replaceSpacedAux w repl fuel cs

def replaceSpaced (w repl s : List Char) : List Char :=
  replaceSpacedAux w repl s.length s

/-- Character class `[A-Za-z0-9._%+-]` (the local part of the strict pattern). -/
def isLocalChar (c : Char) : Bool :=
  c.isAlpha || c.isDigit || c = '.' || c = '_' || c = '%' || c = '+' || c = '-'

/-- Character class `[A-Za-z0-9.-]` (the domain part of the strict pattern). -/
def isDomainChar (c : Char) : Bool :=
  c.isAlpha || c.isDigit || c = '.' || c = '-'

/-- Character class `[A-Z|a-z]` of the strict pattern: note that it literally
contains `|`. -/
def isTldChar (c : Char) : Bool :=
  c.isAlpha || c = '|'

/-- Split a list at the first occurrence of a character: returns the part before it
and the part after it. -/
def splitAtChar (ch : Char) : List Char → Option (List Char × List Char)
  | [] => none
  | c :: cs =>
    if c = ch then some ([], cs)
    else
      match splitAtChar ch cs with
      | none => none
      | some (a, b) => some (c :: a, b)

/-- Embeds `re.match` of `^[A-Za-z0-9._%+-]+@[A-Za-z0-9.-]+\.[A-Z|a-z]{2,}$`.
A match decomposes the string as `local ++ "@" ++ domain ++ "." ++ tld`.  Because
none of the three classes contains `@`, the `@` of any match is the first `@` of the
string, and because the tld class contains no `.`, the `.` of any match is the last
`.` after the `@`; so matching the decomposition at the first `@` and the last `.`
is equivalent to the regex. -/
def matchesStrictEmail (s : List Char) : Bool :=
  match splitAtChar '@' s with
  | none => false
  | some (lp, rest) =>
    !lp.isEmpty && lp.all isLocalChar &&
    (match splitAtChar '.' rest.reverse with
     | none => false
     | some (tldRev, domRev) =>
       !domRev.isEmpty && domRev.all isDomainChar &&
       decide (2 ≤ tldRev.length) && tldRev.all isTldChar)

/-- Embeds `EmailExtractor._is_basic_email_valid`. -/
def is_basic_email_valid (email : List Char) : Bool :=
  if email.isEmpty || !email.contains '@' || !email.contains '.' then false
  else if decide (30 < email.length) then false
  else matchesStrictEmail email

/-- Embeds `EmailExtractor._clean_obfuscated_email`: strip all whitespace, then the
six case-insensitive rewrites in source order, then strip and lower-case, then the
basic validity gate. -/
def clean_obfuscated_email (email : List Char) : Option (List Char) :=
  if email.isEmpty then none
  else
    let e1 := removeAllSpace email
    let e2 := replaceLit ("[at]".data) ("@".data) e1
    let e3 := replaceLit ("(at)".data) ("@".data) e2
    let e4 := replaceSpaced ("AT".data) ("@".data) e3
    let e5 := replaceLit ("[dot]".data) (".".data) e4
    let e6 := replaceLit ("(dot)".data) (".".data) e5
    let e7 := replaceSpaced ("DOT".data) (".".data) e6
    let e8 := toLowerList (stripList e7)
    if is_basic_email_valid e8 then some e8 else none

/-- Python's substring test `p in s`, i.e. contiguous-sublist membership. -/
def isSubstring (p s : List Char) : Bool := decide (p <:+: s)

/-- The `invalid_patterns` denylist of `_filter_and_clean_emails`, in source order. -/
def invalid_patterns : List (List Char) :=
  [("example.com".data), ("test.com".data), ("dummy.com".data), ("placeholder".data),
   ("noreply".data), ("no-reply".data), ("donotreply".data), ("admin@admin".data),
   ("test@test".data), ("user@user".data), ("email@email".data), ("info@info".data),
   ("contact@contact".data), ("sample@sample".data), ("demo@demo".data)]

/-- Embeds `local_part, domain_part = email.split('@'); local_part == domain_part.split('.')[0]`.
The unpacking assignment only succeeds on the validated emails that reach this line,
which contain exactly one `@`, so splitting at the first `@` is faithful there. -/
def localEqualsFirstDomainLabel (email : List Char) : Bool :=
  match splitAtChar '@' email with
  | none => false
  | some (lp, dp) =>
    match splitAtChar '.' dp with
    | none => lp == dp
    | some (d0, _) => lp == d0

/-- Embeds `len(re.findall(r'\d', local_part)) / len(local_part) > 0.7`, compared
exactly over the integers (`10·digits > 7·length`).  Python evaluates the quotient in
floating point, which agrees with the exact comparison away from representation
noise at the threshold. -/
def digitHeavyLocal (email : List Char) : Bool :=
  let lp := match splitAtChar '@' email with
            | none => email
            | some (l, _) => l
  decide (7 * lp.length < 10 * (lp.filter Char.isDigit).length)

/-- Embeds the per-candidate test chain of the loop body of
`_filter_and_clean_emails` (after `email = email.lower().strip()`). -/
def keepEmail (email : List Char) : Bool :=
  is_basic_email_valid email &&
  !(invalid_patterns.any (fun p => isSubstring p email)) &&
  !(localEqualsFirstDomainLabel email) &&
  !(decide (email.length < 6)) &&
  !(digitHeavyLocal email)

def business_keywords : List (List Char) :=
  [("contact".data), ("info".data), ("support".data), ("hello".data),
   ("mail".data), ("office".data)]

def business_domains : List (List Char) :=
  [("gmail.com".data), ("yahoo.com".data), ("hotmail.com".data),
   ("outlook.com".data), ("naver.com".data), ("daum.net".data)]

/-- Embeds the nested scoring function `email_priority`.  `email.split('@')[1]` is
the text between the first and the second `@` (or the end); every email scored here
was validated and has exactly one `@`, so it is simply the part after the `@`. -/
def email_priority (base_domain : List Char) (email : List Char) : Int :=
  let lp := match splitAtChar '@' email with
            | none => email
            | some (l, _) => l
  let dp := match splitAtChar '@' email with
            | none => []
            | some (_, r) =>
              match splitAtChar '@' r with
              | none => r
              | some (d, _) => d
  let domain := toLowerList dp
  let lcl := toLowerList lp
  let s1 : Int := if !base_domain.isEmpty && isSubstring domain base_domain then 100 else 0
  let s2 : Int := if business_keywords.any (fun k => isSubstring k lcl) then 50 else 0
  let s3 : Int := if business_domains.contains domain then 30 else 0
  let s4 : Int := max 0 (30 - (email.length : Int))
  s1 + s2 + s3 + s4

/-- Embeds `EmailExtractor._filter_and_clean_emails`.  Python's
`list(set(filtered_emails))` enumerates the set in an implementation-defined order;
it is modelled by `List.dedup` (the claims below only use membership, which agrees).
`sort(key=email_priority, reverse=True)` is a stable descending sort, i.e. a stable
sort by the relation "priority of the left is at least the priority of the right". -/
def filter_and_clean_emails (emails : List (List Char)) (base_domain : List Char) :
    List (List Char) :=
  if emails.isEmpty then []
  else
    let filtered := (emails.map (fun e => stripList (toLowerList e))).filter keepEmail
    let unique := filtered.dedup
    let sorted := unique.mergeSort
      (fun a b => decide (email_priority base_domain b ≤ email_priority base_domain a))
    sorted.take 10

/-- Embeds `EmailExtractor.extract_emails_from_website` with the crawling boundary
abstracted: `valid_url` stands for `self._is_valid_url(website_url)` and
`candidates` for the set of raw candidate strings harvested from the fetched pages
by the six extraction methods.  The returned list is always the filtered and ranked
`candidates` (or empty for an invalid URL). -/
def extract_emails_from_website (valid_url : Bool) (candidates : List (List Char))
    (base_domain : List Char) : List (List Char) :=
  if !valid_url then []
  else filter_and_clean_emails candidates base_domain

/-- Variant of `_filter_and_clean_emails` with the minimum-length branch
(`if len(email) < 6: continue`) removed; used to state that the branch is
unreachable (claim C10). -/
def keepEmailNoMinLen (email : List Char) : Bool :=
  is_basic_email_valid email &&
  !(invalid_patterns.any (fun p => isSubstring p email)) &&
  !(localEqualsFirstDomainLabel email) &&
  !(digitHeavyLocal email)

def filter_and_clean_emails_no_minlen (emails : List (List Char))
    (base_domain : List Char) : List (List Char) :=
  if emails.isEmpty then []
  else
    let filtered := (emails.map (fun e => stripList (toLowerList e))).filter keepEmailNoMinLen
    let unique := filtered.dedup
    let sorted := unique.mergeSort
      (fun a b => decide (email_priority base_domain b ≤ email_priority base_domain a))
    sorted.take 10

end EmailExtract

noncomputable section

namespace Grid

/-- Python `math.radians`. -/
def radiansOf (deg : ℝ) : ℝ := deg * Real.pi / 180

/-- Embeds the `GridCalculator` class of `backend/grid_calculator.py`; the
constructor default is `earth_radius_km = 6371.0`. -/
structure GridCalculator where
  earth_radius_km : ℝ := 6371

/-- Embeds `GridCalculator.calculate_distance` (the Haversine formula).
`math.sqrt` and `math.asin` raise `ValueError` outside their domains where the
Mathlib functions clamp (`Real.sqrt` of a negative number is `0`, `Real.arcsin`
clamps to `[-π/2, π/2]`); on the geometrically meaningful inputs used below the
domains are respected and the two semantics agree. -/
def GridCalculator.calculate_distance (gc : GridCalculator)
    (lat1 lng1 lat2 lng2 : ℝ) : ℝ :=
  let lat1_rad := radiansOf lat1
  let _lng1_rad := radiansOf lng1
  let lat2_rad := radiansOf lat2
  let _lng2_rad := radiansOf lng2
  let dlat := radiansOf lat2 - radiansOf lat1
  let dlng := radiansOf lng2 - radiansOf lng1
  let a := Real.sin (dlat / 2) ^ 2 +
    Real.cos lat1_rad * Real.cos lat2_rad * Real.sin (dlng / 2) ^ 2
  let c := 2 * Real.arcsin (Real.sqrt a)
  gc.earth_radius_km * c

/-- Embeds `GridCalculator.calculate_grid_points`.  The two nested `for i/j in
range(grid_size)` loops with a conditional `append` are the `flatMap`/`filterMap`
over `List.range grid_size` in the same order. -/
def GridCalculator.calculate_grid_points (gc : GridCalculator)
    (center_lat center_lng radius_km : ℝ) (grid_size : ℕ) : List (ℝ × ℝ × ℝ) :=
  let grid_radius := radius_km / grid_size
  let lat_degree_km : ℝ := 111
  let lng_degree_km := lat_degree_km * Real.cos (radiansOf center_lat)
  let radius_lat := radius_km / lat_degree_km
  let radius_lng := radius_km / lng_degree_km
  let step_lat := 2 * radius_lat / grid_size
  let step_lng := 2 * radius_lng / grid_size
  (List.range grid_size).flatMap (fun (i : ℕ) =>
    (List.range grid_size).filterMap (fun (j : ℕ) =>
      let grid_lat := center_lat - radius_lat + ((i : ℝ) + 0.5) * step_lat
      let grid_lng := center_lng - radius_lng + ((j : ℝ) + 0.5) * step_lng
      if gc.calculate_distance center_lat center_lng grid_lat grid_lng ≤ radius_km
      then some (grid_lat, grid_lng, grid_radius) else none))

/-- The engine's calculator, `GridCalculator()` with the default Earth radius. -/
def theGridCalculator : GridCalculator := {}

end Grid

namespace Search

open Grid

/-- Embeds the result dictionaries built by `PlacesAPIClient._parse_places` and
mutated by the search engine.  Keys that `_parse_places` does not set and that are
only added later (`distance_from_center`, `search_keyword`, `formatted_address`,
`has_email`) are `Option`-valued, `none` meaning "key absent"; a `place_id` of `""`
models a missing/None id (`if not place_id` in the source).  Fields irrelevant to
the verified claims (types, rating counts, …) are omitted. -/
structure PlaceResult where
  place_id : String
  name : String := ""
  address : String := ""
  lat : ℝ := 0
  lng : ℝ := 0
  rating : ℚ := 0
  distance : ℝ := 0
  website : Option String := none
  phone : Option String := none
  formatted_address : Option String := none
  emails : List (List Char) := []
  has_email : Option Bool := none
  distance_from_center : Option ℝ := none
  search_keyword : Option String := none

/-- The fields of the place-details response used by
`PlacesAPIClient.enrich_places_with_details`. -/
structure DetailResult where
  website : Option String := none
  formatted_phone_number : Option String := none
  formatted_address : Option String := none

/-- Python truthiness of `place.get('website')`: present and non-empty. -/
def websiteTruthy : Option String → Bool
  | none => false
  | some s => !(s = "")

/-- Embeds the loop body of `PlacesAPIClient.enrich_places_with_details` for one
place.  `get_place_details` is the external-lookup boundary: `.error` models the
call raising (caught by the surrounding `try`, which keeps the place unchanged),
`.ok none` models the API answering without a result, `.ok (some d)` a successful
detail record. -/
def enrich_place (get_place_details : String → Except String (Option DetailResult))
    (place : PlaceResult) : PlaceResult :=
  if place.place_id = "" then place
  else
    match get_place_details place.place_id with
    | .error _ => place
    | .ok none => place
    | .ok (some details) =>
      { place with
        website := details.website
        phone := details.formatted_phone_number
        formatted_address := some (details.formatted_address.getD place.address) }

/-- Embeds `PlacesAPIClient.enrich_places_with_details`: each place of the input
list contributes exactly one (possibly enriched) output entry, in order. -/
def enrich_places_with_details
    (get_place_details : String → Except String (Option DetailResult))
    (places : List PlaceResult) : List PlaceResult :=
  places.map (enrich_place get_place_details)

/-- Two-decimal rounding `round(x, 2)` (Python rounds half to even; `round` in
Mathlib rounds half up — the two agree except exactly at midpoints, and no claim
below depends on a midpoint). -/
def round2 (x : ℝ) : ℝ := (round (100 * x) : ℤ) / 100

/-- Embeds the per-result body of the search loop of `GridSearchEngine.search_grid`
(lines "for result in results" of `search_grid`): skip ids already seen, compute the
true distance from the original center, and accept (tagging keyword and rounded
distance) only within the original radius.  The state is the pair
`(all_results, seen_place_ids)`; the Python `set` is modelled as the list of ids
added so far. -/
def accept_step (center_lat center_lng radius_km : ℝ) (keyword : String)
    (st : List PlaceResult × List String) (result : PlaceResult) :
    List PlaceResult × List String :=
  if result.place_id ∈ st.2 then st
  else
    let distance_from_center :=
      theGridCalculator.calculate_distance center_lat center_lng result.lat result.lng
    if distance_from_center ≤ radius_km then
      (st.1 ++ [{ result with
                  distance_from_center := some (round2 distance_from_center),
                  search_keyword := some keyword }],
       result.place_id :: st.2)
    else st

/-- The `(grid cell, keyword)` pairs in iteration order: grid cells in lattice
order (outer loop), keywords in input order (inner loop). -/
def search_passes (grid_points : List (ℝ × ℝ × ℝ)) (keywords : List String) :
    List ((ℝ × ℝ × ℝ) × String) :=
  grid_points.flatMap (fun gp => keywords.map (fun kw => (gp, kw)))

/-- The results of one `nearby_search` call; a raised exception (`.error`) is
caught by the inner `try/except` of the search loop, which just moves on (no
results are processed for that pass). -/
def pass_results
    (nearby_search : ℝ → ℝ → ℝ → String → Except String (List PlaceResult))
    (gp : ℝ × ℝ × ℝ) (keyword : String) : List PlaceResult :=
  match nearby_search gp.1 gp.2.1 gp.2.2 keyword with
  | .ok results => results
  | .error _ => []

/-- The full search phase of `search_grid`: both nested loops with the dedup /
distance-filter body. -/
def run_search_passes
    (nearby_search : ℝ → ℝ → ℝ → String → Except String (List PlaceResult))
    (center_lat center_lng radius_km : ℝ)
    (grid_points : List (ℝ × ℝ × ℝ)) (keywords : List String) :
    List PlaceResult × List String :=
  (search_passes grid_points keywords).foldl
    (fun st p =>
      (pass_results nearby_search p.1 p.2).foldl
        (accept_step center_lat center_lng radius_km p.2) st)
    ([], [])

/-- The flattened stream of `(keyword, result)` pairs the search loop processes,
in processing order. -/
def search_stream
    (nearby_search : ℝ → ℝ → ℝ → String → Except String (List PlaceResult))
    (grid_points : List (ℝ × ℝ × ℝ)) (keywords : List String) :
    List (String × PlaceResult) :=
  (search_passes grid_points keywords).flatMap
    (fun p => (pass_results nearby_search p.1 p.2).map (fun r => (p.2, r)))

/-- Embeds the per-place body of the email-extraction phase of `search_grid`:
called only for places with a truthy website; an extractor failure is caught and
recorded as "no emails". -/
def apply_email_extraction
    (extractor : String → Except String (List (List Char)))
    (place : PlaceResult) : PlaceResult :=
  match place.website with
  | none => place
  | some w =>
    if w = "" then place
    else
      match extractor w with
      | .ok es => { place with emails := es, has_email := some (!es.isEmpty) }
      | .error _ => { place with emails := [], has_email := some false }

/-- Embeds the "ensure all places have email fields" loop: `emails` is always
present in the model; `has_email` is set to `False` where absent. -/
def ensure_email_fields (place : PlaceResult) : PlaceResult :=
  { place with has_email := some (place.has_email.getD false) }

/-- Sort key of the final `all_results.sort(key=lambda x: x.get('distance_from_center',
float('inf')))`: a missing key sorts last. -/
def sortKey (place : PlaceResult) : WithTop ℝ :=
  match place.distance_from_center with
  | some d => (d : WithTop ℝ)
  | none => ⊤

/-- The progress fractions of the search phase: before pass number `i+1` of
`total` the engine reports `0.02 + ((i+1)/total) * 0.6` (the loop's
`current_search / total_searches` with the exact stage constants; the fractions are
rational so they are modelled in `ℚ`). -/
def search_events (total : ℕ) : List (ℚ × String) :=
  (List.range total).map
    (fun (i : ℕ) => (1 / 50 + (((i : ℚ) + 1) / (total : ℚ)) * (3 / 5), "searching"))

/-- The per-record progress fractions of the enrichment phase:
`0.62 + (idx/len) * 0.3`. -/
def detail_events (num_results : ℕ) : List (ℚ × String) :=
  (List.range num_results).map
    (fun (i : ℕ) => (31 / 50 + ((i : ℚ) / (num_results : ℚ)) * (3 / 10), "detail"))

/-- The per-record progress fractions of the extraction phase:
`0.92 + (idx/len) * 0.08`. -/
def email_events (num_websites : ℕ) : List (ℚ × String) :=
  (List.range num_websites).map
    (fun (i : ℕ) => (23 / 25 + ((i : ℚ) / (num_websites : ℚ)) * (2 / 25), "email"))

/-- The full event trace of a completed run, assembled from the stage events:
the planning event, the per-pass search events, the enrichment header and
per-record events, the extraction events (only when requested), and the final
`1.0` event. -/
def events_of (total_searches num_results num_websites : ℕ) (extract_emails : Bool) :
    List (ℚ × String) :=
  ((1 : ℚ) / 50, "planning") ::
    (search_events total_searches ++
      (((31 : ℚ) / 50, "details") ::
        (detail_events num_results ++
          ((if extract_emails then email_events num_websites else []) ++
            [((1 : ℚ), "done")]))))

/-- Embeds `GridSearchEngine.search_grid` (the successfully completing run):
returns the sorted result list together with the full list of progress events
(fraction, message) passed to the progress callback, in emission order.  Message
texts are abstracted to constant tags; no claim depends on them. -/
def search_grid
    (nearby_search : ℝ → ℝ → ℝ → String → Except String (List PlaceResult))
    (get_place_details : String → Except String (Option DetailResult))
    (extractor : String → Except String (List (List Char)))
    (center_lat center_lng radius_km : ℝ) (keywords : List String)
    (grid_size : ℕ) (extract_emails : Bool) :
    List PlaceResult × List (ℚ × String) :=
  let grid_points :=
    theGridCalculator.calculate_grid_points center_lat center_lng radius_km grid_size
  let total_searches := grid_points.length * keywords.length
  let st := run_search_passes nearby_search center_lat center_lng radius_km
    grid_points keywords
  let all_results := st.1
  let enriched := enrich_places_with_details get_place_details all_results
  let with_emails :=
    if extract_emails then
      (enriched.map (apply_email_extraction extractor)).map ensure_email_fields
    else enriched
  let sorted := with_emails.mergeSort (fun a b => decide (sortKey a ≤ sortKey b))
  (sorted,
    events_of total_searches all_results.length
      ((enriched.filter (fun p => websiteTruthy p.website)).length) extract_emails)

/-- Embeds the outer `except` handler of `search_grid` (lines 207–210): whatever
events were already emitted — always a prefix of the events of the completed run —
are followed by one final event with fraction `1.0`, and the error is re-raised. -/
def failure_events (emitted : List (ℚ × String)) (msg : String) : List (ℚ × String) :=
  emitted ++ [(1, msg)]

/-- The result `res` lies within `radius_km` of the original center (the search
loop's acceptance test). -/
def Accepts (center_lat center_lng radius_km : ℝ) (res : PlaceResult) : Prop :=
  theGridCalculator.calculate_distance center_lat center_lng res.lat res.lng ≤ radius_km

/-- The record the search loop appends when accepting `res` under `keyword`. -/
def accepted_of (center_lat center_lng : ℝ) (res : PlaceResult) (keyword : String) :
    PlaceResult :=
  { res with
    distance_from_center := some (round2
      (theGridCalculator.calculate_distance center_lat center_lng res.lat res.lng)),
    search_keyword := some keyword }

/-- `rec` originates from the first in-radius occurrence of its id in the processed
stream: the stream splits as `a ++ (kw, res) :: b` where `res` carries `rec`'s id
and is in radius, `rec` is the accepted form of `res` tagged with `kw`, and no
element of the earlier part `a` carries the same id within the radius. -/
def RecFrom (center_lat center_lng radius_km : ℝ)
    (stream : List (String × PlaceResult)) (rec : PlaceResult) : Prop :=
  ∃ a kw res b, stream = a ++ (kw, res) :: b ∧
    res.place_id = rec.place_id ∧
    Accepts center_lat center_lng radius_km res ∧
    rec = accepted_of center_lat center_lng res kw ∧
    ∀ q ∈ a, q.2.place_id = rec.place_id →
      ¬ Accepts center_lat center_lng radius_km q.2

/-- The elementwise form of the search phase: fold the acceptance step over the
flattened `(keyword, result)` stream. -/
def accept_fold (center_lat center_lng radius_km : ℝ)
    (st : List PlaceResult × List String) (stream : List (String × PlaceResult)) :
    List PlaceResult × List String :=
  stream.foldl (fun st q => accept_step center_lat center_lng radius_km q.1 st q.2) st

/-- Invariant of the search fold after processing the stream prefix `pre`:
the seen-set is exactly the set of accepted ids, accepted ids are pairwise
distinct, every in-radius id of the prefix has been seen, and every accepted
record originates from the first in-radius occurrence of its id. -/
def SearchInv (center_lat center_lng radius_km : ℝ)
    (pre : List (String × PlaceResult)) (st : List PlaceResult × List String) : Prop :=
  (∀ x, x ∈ st.2 ↔ x ∈ st.1.map PlaceResult.place_id) ∧
  (st.1.map PlaceResult.place_id).Nodup ∧
  (∀ q ∈ pre, Accepts center_lat center_lng radius_km q.2 → q.2.place_id ∈ st.2) ∧
  (∀ rec ∈ st.1, RecFrom center_lat center_lng radius_km pre rec)

/-- Well-formedness of a progress-event list: fractions are monotonically
non-decreasing, lie in `[0, 1]`, and the last one is `1.0`. -/
def GoodEvents (evs : List (ℚ × String)) : Prop :=
  List.Chain' (· ≤ ·) (evs.map Prod.fst) ∧
  (∀ e ∈ evs, 0 ≤ e.1 ∧ e.1 ≤ 1) ∧
  (evs.map Prod.fst).getLast? = some 1

/-- Concrete external collaborators for the deterministic runs used by the
counterexample and the witnesses: every nearby search returns the single place
`"p1"` on the equator, two degrees of longitude east of the origin; detail lookups
answer nothing; the extractor is offline. -/
def cNearby : ℝ → ℝ → ℝ → String → Except String (List PlaceResult) :=
  fun _ _ _ _ => .ok [{ place_id := "p1", lat := 0, lng := 2 }]

def cDetails : String → Except String (Option DetailResult) :=
  fun _ => .ok none

def cExtract : String → Except String (List (List Char)) :=
  fun _ => .error "offline"

/-- The radius of the concrete run: `222.3899 km`.  The place `"p1"` lies at true
Haversine distance `6371·π/90 ≈ 222.38985 km` from the center — inside the radius,
but its two-decimal rounding `222.39` exceeds the radius. -/
def cRadius : ℝ := 2223899 / 10000

/-- The concrete completed grid-search run. -/
def cRun : List PlaceResult × List (ℚ × String) :=
  search_grid cNearby cDetails cExtract 0 0 cRadius ["cafe"] 1 false

/-- The single record returned by the concrete run. -/
def cRec : PlaceResult :=
  { place_id := "p1", lat := 0, lng := 2,
    distance_from_center := some (22239 / 100), search_keyword := some "cafe" }

end Search

/-! ## Lemmas about the email pipeline -/

namespace EmailExtract

theorem splitAtChar_spec {ch : Char} :
    ∀ {s a b : List Char}, splitAtChar ch s = some (a, b) →
      s = a ++ ch :: b ∧ ch ∉ a := by
  intro s
  induction s with
  | nil => intro a b h; simp [splitAtChar] at h
  | cons c cs ih =>
    intro a b h
    by_cases hc : c = ch
    · subst hc
      simp [splitAtChar] at h
      obtain ⟨ha, hb⟩ := h
      subst ha; subst hb
      simp
    · rw [splitAtChar, if_neg hc] at h
      cases hsp : splitAtChar ch cs with
      | none => rw [hsp] at h; exact absurd h (by simp)
      | some ab =>
        obtain ⟨a0, b0⟩ := ab
        rw [hsp] at h
        simp at h
        obtain ⟨ha, hb⟩ := h
        obtain ⟨hcs, hnot⟩ := ih hsp
        subst ha; subst hb
        constructor
        · simp [hcs]
        · intro hmem
          rcases List.mem_cons.mp hmem with hh | hh
          · exact hc hh.symm
          · exact hnot hh

theorem matchesStrictEmail_decomp {s : List Char} (h : matchesStrictEmail s = true) :
    ∃ lp dom tld, s = lp ++ '@' :: (dom ++ '.' :: tld) ∧
      lp ≠ [] ∧ lp.all isLocalChar ∧
      dom ≠ [] ∧ dom.all isDomainChar ∧
      2 ≤ tld.length ∧ tld.all isTldChar := by
  unfold matchesStrictEmail at h
  cases h1 : splitAtChar '@' s with
  | none => rw [h1] at h; exact absurd h (by simp)
  | some p =>
    obtain ⟨lp, rest⟩ := p
    rw [h1] at h
    dsimp only at h
    obtain ⟨hs, _⟩ := splitAtChar_spec h1
    cases h2 : splitAtChar '.' rest.reverse with
    | none => rw [h2] at h; simp at h
    | some q =>
      obtain ⟨tldRev, domRev⟩ := q
      rw [h2] at h
      dsimp only at h
      simp only [Bool.and_eq_true, decide_eq_true_eq] at h
      obtain ⟨⟨hlp1, hlp2⟩, ⟨⟨hdom1, hdom2⟩, htld1⟩, htld2⟩ := h
      obtain ⟨hrest, _⟩ := splitAtChar_spec h2
      refine ⟨lp, domRev.reverse, tldRev.reverse, ?_, ?_, hlp2, ?_, ?_, ?_, ?_⟩
      · have : rest = domRev.reverse ++ '.' :: tldRev.reverse := by
          have := congrArg List.reverse hrest
          simpa [List.reverse_append] using this
        rw [hs, this]
      · simpa using hlp1
      · simpa using hdom1
      · simpa using hdom2
      · simpa using htld1
      · simpa using htld2

theorem count_eq_zero_of_all {p : Char → Bool} {l : List Char} {c : Char}
    (hall : l.all p = true) (hc : p c = false) : List.count c l = 0 := by
  rw [List.count_eq_zero]
  intro hmem
  rw [List.all_eq_true] at hall
  have := hall c hmem
  rw [hc] at this
  exact absurd this (by simp)

theorem valid_email_shape {e : List Char} (h : is_basic_email_valid e = true) :
    e.length ≤ 30 ∧ List.count '@' e = 1 ∧ 6 ≤ e.length := by
  unfold is_basic_email_valid at h
  by_cases h0 : e.isEmpty || !e.contains '@' || !e.contains '.'
  · rw [if_pos h0] at h; exact absurd h (by simp)
  · rw [if_neg h0] at h
    by_cases h30 : decide (30 < e.length) = true
    · rw [if_pos h30] at h; exact absurd h (by simp)
    · rw [if_neg h30] at h
      have hlen : e.length ≤ 30 := by
        simp only [decide_eq_true_eq] at h30; omega
      obtain ⟨lp, dom, tld, hdec, hlp1, hlp2, hdom1, hdom2, htld1, htld2⟩ :=
        matchesStrictEmail_decomp h
      have hlp0 : List.count '@' lp = 0 :=
        count_eq_zero_of_all hlp2 (by decide)
      have hdom0 : List.count '@' dom = 0 :=
        count_eq_zero_of_all hdom2 (by decide)
      have htld0 : List.count '@' tld = 0 :=
        count_eq_zero_of_all htld2 (by decide)
      constructor
      · exact hlen
      constructor
      · rw [hdec]
        simp [List.count_append, List.count_cons, hlp0, hdom0, htld0]
      · rw [hdec]
        have : 1 ≤ lp.length := by
          cases lp with
          | nil => exact absurd rfl hlp1
          | cons _ _ => simp
        have : 1 ≤ dom.length := by
          cases dom with
          | nil => exact absurd rfl hdom1
          | cons _ _ => simp
        simp only [List.length_append, List.length_cons]
        omega

end EmailExtract

namespace EmailExtract

theorem mem_filter_and_clean {emails : List (List Char)} {base_domain e : List Char}
    (h : e ∈ filter_and_clean_emails emails base_domain) : keepEmail e = true := by
  unfold filter_and_clean_emails at h
  by_cases h0 : emails.isEmpty
  · rw [if_pos h0] at h; exact absurd h (by simp)
  · rw [if_neg h0] at h
    have h1 := List.take_subset 10 _ h
    have h2 := ((List.mergeSort_perm _ _).mem_iff).mp h1
    have h3 := List.mem_dedup.mp h2
    exact (List.mem_filter.mp h3).2

theorem filter_and_clean_length_le {emails : List (List Char)} {base_domain : List Char} :
    (filter_and_clean_emails emails base_domain).length ≤ 10 := by
  unfold filter_and_clean_emails
  by_cases h0 : emails.isEmpty
  · rw [if_pos h0]; simp
  · rw [if_neg h0]
    exact List.length_take_le 10 _

theorem keepEmail_valid {e : List Char} (h : keepEmail e = true) :
    is_basic_email_valid e = true := by
  unfold keepEmail at h
  simp only [Bool.and_eq_true] at h
  exact h.1.1.1.1

theorem keepEmail_denylist {e : List Char} (h : keepEmail e = true) :
    ∀ p ∈ invalid_patterns, ¬ (p <:+: e) := by
  unfold keepEmail at h
  simp only [Bool.and_eq_true, Bool.not_eq_true] at h
  have hd := h.1.1.1.2
  intro p hp hinf
  have : invalid_patterns.any (fun p => isSubstring p e) = true := by
    rw [List.any_eq_true]
    exact ⟨p, hp, by simpa [isSubstring] using hinf⟩
  rw [this] at hd
  exact absurd hd (by simp)

/-- C5.  Every email list the extraction engine returns for a website has at most
10 entries, and each entry is at most 30 characters long, contains exactly one `@`,
and contains no denylisted placeholder substring. -/
theorem extraction_result_invariant (valid_url : Bool) (candidates : List (List Char))
    (base_domain : List Char) :
    (extract_emails_from_website valid_url candidates base_domain).length ≤ 10 ∧
    ∀ e ∈ extract_emails_from_website valid_url candidates base_domain,
      e.length ≤ 30 ∧ List.count '@' e = 1 ∧ ∀ p ∈ invalid_patterns, ¬ (p <:+: e) := by
  unfold extract_emails_from_website
  by_cases hv : !valid_url
  · rw [if_pos hv]; simp
  · rw [if_neg hv]
    refine ⟨filter_and_clean_length_le, ?_⟩
    intro e he
    have hk := mem_filter_and_clean he
    have hval := keepEmail_valid hk
    obtain ⟨h30, h1, _⟩ := valid_email_shape hval
    exact ⟨h30, h1, keepEmail_denylist hk⟩

/-- C5 witness: the invariant evaluated on a concrete extraction. -/
theorem extraction_result_invariant_witness :
    (extract_emails_from_website true [("info@acme.com".data)] ("acme.com".data)).length ≤ 10 ∧
    ∀ e ∈ extract_emails_from_website true [("info@acme.com".data)] ("acme.com".data),
      e.length ≤ 30 ∧ List.count '@' e = 1 ∧ ∀ p ∈ invalid_patterns, ¬ (p <:+: e) :=
  extraction_result_invariant true [("info@acme.com".data)] ("acme.com".data)

/-- C10.  Every string accepted by the basic validity check has length at least 6,
so the plausibility filter's minimum-length branch is unreachable: removing it does
not change the output of `_filter_and_clean_emails` on any input. -/
theorem minlen_branch_unreachable :
    (∀ e : List Char, is_basic_email_valid e = true → 6 ≤ e.length) ∧
    (∀ (emails : List (List Char)) (base_domain : List Char),
      filter_and_clean_emails emails base_domain =
        filter_and_clean_emails_no_minlen emails base_domain) := by
  have hlen : ∀ e : List Char, is_basic_email_valid e = true → 6 ≤ e.length :=
    fun e he => (valid_email_shape he).2.2
  refine ⟨hlen, ?_⟩
  intro emails base_domain
  unfold filter_and_clean_emails filter_and_clean_emails_no_minlen
  by_cases h0 : emails.isEmpty
  · rw [if_pos h0, if_pos h0]
  · rw [if_neg h0, if_neg h0]
    have hfe : ∀ e ∈ emails.map (fun e => stripList (toLowerList e)),
        keepEmail e = keepEmailNoMinLen e := by
      intro e _
      unfold keepEmail keepEmailNoMinLen
      cases hv : is_basic_email_valid e with
      | false => simp
      | true =>
        have h6 := hlen e hv
        have : decide (e.length < 6) = false := by simp; omega
        rw [this]
        simp
    rw [List.filter_congr hfe]

/-- C10 witness: a concrete validated email of length at least 6. -/
theorem minlen_branch_unreachable_witness :
    is_basic_email_valid ("ab@cd.ef".data) = true ∧ 6 ≤ ("ab@cd.ef".data).length :=
  ⟨by decide, minlen_branch_unreachable.1 ("ab@cd.ef".data) (by decide)⟩

/-- C4.  The deobfuscation normalizer strips all whitespace before applying the
`\s+AT\s+`/`\s+DOT\s+` rewrites, so those rewrites can never fire: the spaced
obfuscated form `info AT company DOT com` is rejected (returns no candidate)
instead of normalizing to the valid address `info@company.com`. -/
theorem spaced_at_form_rejected :
    clean_obfuscated_email ("info AT company DOT com".data) = none ∧
    is_basic_email_valid ("info@company.com".data) = true := by
  constructor
  · decide
  · decide

/-- C7.  The deobfuscation round-trip on the spec's witnesses: the bracketed form
normalizes to `info@company.com`, which passes basic validity, while the
over-30-character address is rejected even after normalization. -/
theorem deobfuscation_roundtrip :
    clean_obfuscated_email ("info[at]company[dot]com".data) =
      some ("info@company.com".data) ∧
    is_basic_email_valid ("info@company.com".data) = true ∧
    clean_obfuscated_email ("verylongencryptedkey123456789@domain.com".data) = none := by
  refine ⟨by decide, by decide, by decide⟩

end EmailExtract

/-! ## Lemmas about the grid planner -/

namespace Grid

/-- C3.  For every valid center, positive radius and grid size in `[2, 6]`, the
grid planner returns at most `grid_size²` cells, every returned cell's center is
within `radius_km` of the center in Haversine distance, and every returned cell's
radius equals `radius_km / grid_size`. -/
theorem grid_planner_bounds (gc : GridCalculator) (center_lat center_lng radius_km : ℝ)
    (n : ℕ) (h1 : -90 ≤ center_lat) (h2 : center_lat ≤ 90) (h3 : -180 ≤ center_lng)
    (h4 : center_lng ≤ 180) (h5 : 0 < radius_km) (h6 : 2 ≤ n) (h7 : n ≤ 6) :
    (gc.calculate_grid_points center_lat center_lng radius_km n).length ≤ n ^ 2 ∧
    (∀ p ∈ gc.calculate_grid_points center_lat center_lng radius_km n,
      gc.calculate_distance center_lat center_lng p.1 p.2.1 ≤ radius_km) ∧
    (∀ p ∈ gc.calculate_grid_points center_lat center_lng radius_km n,
      p.2.2 = radius_km / n) := by
  refine ⟨?_, ?_, ?_⟩
  · rw [GridCalculator.calculate_grid_points, List.length_flatMap]
    refine le_trans (List.sum_le_card_nsmul _ n ?_) ?_
    · intro x hx
      rw [List.mem_map] at hx
      obtain ⟨i, -, rfl⟩ := hx
      simpa using List.length_filterMap_le _ (List.range n)
    · simp [pow_two]
  · intro p hp
    rw [GridCalculator.calculate_grid_points] at hp
    simp only [List.mem_flatMap, List.mem_filterMap, List.mem_range] at hp
    obtain ⟨i, _, j, _, hj⟩ := hp
    rw [Option.ite_none_right_eq_some] at hj
    obtain ⟨hle, heq⟩ := hj
    obtain rfl := Option.some_injective _ heq
    exact hle
  · intro p hp
    rw [GridCalculator.calculate_grid_points] at hp
    simp only [List.mem_flatMap, List.mem_filterMap, List.mem_range] at hp
    obtain ⟨i, _, j, _, hj⟩ := hp
    rw [Option.ite_none_right_eq_some] at hj
    obtain ⟨_, heq⟩ := hj
    obtain rfl := Option.some_injective _ heq
    rfl

/-- C3 witness: the spec's scenario center (Seoul), radius 5 km, grid size 3. -/
theorem grid_planner_bounds_witness :
    (theGridCalculator.calculate_grid_points 37.5665 126.978 5 3).length ≤ 3 ^ 2 ∧
    (∀ p ∈ theGridCalculator.calculate_grid_points 37.5665 126.978 5 3,
      theGridCalculator.calculate_distance 37.5665 126.978 p.1 p.2.1 ≤ 5) ∧
    (∀ p ∈ theGridCalculator.calculate_grid_points 37.5665 126.978 5 3,
      p.2.2 = 5 / (3 : ℕ)) :=
  grid_planner_bounds theGridCalculator 37.5665 126.978 5 3
    (by norm_num) (by norm_num) (by norm_num) (by norm_num) (by norm_num)
    (by norm_num) (by norm_num)

end Grid

/-! ## Lemmas about enrichment -/

namespace Search

theorem enrich_place_place_id (f : String → Except String (Option DetailResult))
    (p : PlaceResult) : (enrich_place f p).place_id = p.place_id := by
  unfold enrich_place
  by_cases h : p.place_id = ""
  · rw [if_pos h]
  · rw [if_neg h]
    cases f p.place_id with
    | error _ => rfl
    | ok o => cases o <;> rfl

/-- C9.  Enrichment never loses a record: the enriched list has the same ids in the
same order, each output entry depends only on its own input entry, and a record
whose detail lookup raises is kept completely unchanged (its website and phone stay
unset). -/
theorem enrich_fail_soft (get_place_details : String → Except String (Option DetailResult))
    (places : List PlaceResult) :
    ((enrich_places_with_details get_place_details places).map PlaceResult.place_id =
      places.map PlaceResult.place_id) ∧
    (∀ (i : ℕ) (h1 : i < places.length)
      (h2 : i < (enrich_places_with_details get_place_details places).length),
      (enrich_places_with_details get_place_details places).get ⟨i, h2⟩ =
        enrich_place get_place_details (places.get ⟨i, h1⟩)) ∧
    (∀ (place : PlaceResult) (err : String),
      get_place_details place.place_id = .error err →
      enrich_place get_place_details place = place) := by
  refine ⟨?_, ?_, ?_⟩
  · unfold enrich_places_with_details
    rw [List.map_map]
    exact List.map_congr_left (fun p _ => enrich_place_place_id _ p)
  · intro i h1 h2
    unfold enrich_places_with_details at h2 ⊢
    simp [List.get_map]
  · intro place err herr
    unfold enrich_place
    by_cases h : place.place_id = ""
    · rw [if_pos h]
    · rw [if_neg h, herr]

/-- C9 witness: a failing lookup leaves the concrete record untouched. -/
theorem enrich_fail_soft_witness :
    enrich_place (fun _ => Except.error "boom") { place_id := "p" } =
      ({ place_id := "p" } : PlaceResult) :=
  (enrich_fail_soft (fun _ => Except.error "boom") []).2.2 { place_id := "p" } "boom" rfl

end Search

/-! ## Lemmas about progress events -/

namespace Search

theorem mem_of_getLast?_self {α : Type} {l : List α} {a : α} (h : a ∈ l.getLast?) :
    a ∈ l := by
  obtain ⟨hne, rfl⟩ := List.mem_getLast?_eq_getLast h
  exact List.getLast_mem hne

theorem chain'_glue (u : ℚ) {l₁ l₂ : List ℚ}
    (h₁ : List.Chain' (· ≤ ·) l₁) (h₂ : List.Chain' (· ≤ ·) l₂)
    (hb₁ : ∀ x ∈ l₁, x ≤ u) (hb₂ : ∀ y ∈ l₂, u ≤ y) :
    List.Chain' (· ≤ ·) (l₁ ++ l₂) := by
  rw [List.chain'_append]
  refine ⟨h₁, h₂, fun x hx y hy => ?_⟩
  exact le_trans (hb₁ x (mem_of_getLast?_self hx)) (hb₂ y (List.mem_of_mem_head? hy))

theorem chain'_map_range {f : ℕ → ℚ} {n : ℕ} (h : ∀ i, i + 1 < n → f i ≤ f (i + 1)) :
    List.Chain' (· ≤ ·) ((List.range n).map f) := by
  rw [List.chain'_map]
  cases n with
  | zero => simp
  | succ m =>
    rw [List.chain'_range_succ]
    intro k hk
    exact h k (by omega)

theorem search_fst_mem {T : ℕ} {q : ℚ} (h : q ∈ (search_events T).map Prod.fst) :
    1 / 50 ≤ q ∧ q ≤ 31 / 50 := by
  simp only [search_events, List.map_map, List.mem_map, List.mem_range,
    Function.comp] at h
  obtain ⟨i, hi, rfl⟩ := h
  have hT : (0 : ℚ) < (T : ℚ) := by
    have : 0 < T := by omega
    exact_mod_cast this
  have h0 : (0 : ℚ) ≤ ((i : ℚ) + 1) / (T : ℚ) := by positivity
  have h1 : ((i : ℚ) + 1) / (T : ℚ) ≤ 1 := by
    rw [div_le_one hT]
    exact_mod_cast hi
  constructor <;> nlinarith

theorem detail_fst_mem {L : ℕ} {q : ℚ} (h : q ∈ (detail_events L).map Prod.fst) :
    31 / 50 ≤ q ∧ q ≤ 23 / 25 := by
  simp only [detail_events, List.map_map, List.mem_map, List.mem_range,
    Function.comp] at h
  obtain ⟨i, hi, rfl⟩ := h
  have hL : (0 : ℚ) < (L : ℚ) := by
    have : 0 < L := by omega
    exact_mod_cast this
  have h0 : (0 : ℚ) ≤ (i : ℚ) / (L : ℚ) := by positivity
  have h1 : (i : ℚ) / (L : ℚ) ≤ 1 := by
    rw [div_le_one hL]
    exact_mod_cast hi.le
  constructor <;> nlinarith

theorem email_fst_mem {M : ℕ} {q : ℚ} (h : q ∈ (email_events M).map Prod.fst) :
    23 / 25 ≤ q ∧ q ≤ 1 := by
  simp only [email_events, List.map_map, List.mem_map, List.mem_range,
    Function.comp] at h
  obtain ⟨i, hi, rfl⟩ := h
  have hM : (0 : ℚ) < (M : ℚ) := by
    have : 0 < M := by omega
    exact_mod_cast this
  have h0 : (0 : ℚ) ≤ (i : ℚ) / (M : ℚ) := by positivity
  have h1 : (i : ℚ) / (M : ℚ) ≤ 1 := by
    rw [div_le_one hM]
    exact_mod_cast hi.le
  constructor <;> nlinarith

theorem search_events_chain (T : ℕ) :
    List.Chain' (· ≤ ·) ((search_events T).map Prod.fst) := by
  rw [search_events, List.map_map]
  apply chain'_map_range
  intro i hi
  have hT : (0 : ℚ) < (T : ℚ) := by
    have : 0 < T := by omega
    exact_mod_cast this
  simp only [Function.comp]
  have hdiv : ((i : ℚ) + 1) / (T : ℚ) ≤ (((i : ℚ) + 1) + 1) / (T : ℚ) := by
    rw [div_le_div_right hT]
    linarith
  push_cast
  nlinarith

theorem detail_events_chain (L : ℕ) :
    List.Chain' (· ≤ ·) ((detail_events L).map Prod.fst) := by
  rw [detail_events, List.map_map]
  apply chain'_map_range
  intro i hi
  have hL : (0 : ℚ) < (L : ℚ) := by
    have : 0 < L := by omega
    exact_mod_cast this
  simp only [Function.comp]
  have hdiv : (i : ℚ) / (L : ℚ) ≤ ((i : ℚ) + 1) / (L : ℚ) := by
    rw [div_le_div_right hL]
    linarith
  push_cast
  nlinarith

theorem email_events_chain (M : ℕ) :
    List.Chain' (· ≤ ·) ((email_events M).map Prod.fst) := by
  rw [email_events, List.map_map]
  apply chain'_map_range
  intro i hi
  have hM : (0 : ℚ) < (M : ℚ) := by
    have : 0 < M := by omega
    exact_mod_cast this
  simp only [Function.comp]
  have hdiv : (i : ℚ) / (M : ℚ) ≤ ((i : ℚ) + 1) / (M : ℚ) := by
    rw [div_le_div_right hM]
    linarith
  push_cast
  nlinarith

end Search

namespace Search

theorem emailopt_fst_mem {M : ℕ} {b : Bool} {q : ℚ}
    (h : q ∈ ((if b then email_events M else []).map Prod.fst)) :
    23 / 25 ≤ q ∧ q ≤ 1 := by
  cases b with
  | false => simp at h
  | true => exact email_fst_mem (by simpa using h)

theorem emailopt_chain {M : ℕ} {b : Bool} :
    List.Chain' (· ≤ ·) (((if b then email_events M else []).map Prod.fst)) := by
  cases b with
  | false => simp
  | true => simpa using email_events_chain M

theorem goodEvents_events_of (T L M : ℕ) (b : Bool) :
    GoodEvents (events_of T L M b) := by
  have htail_ge : ∀ y ∈ ((31 : ℚ) / 50) ::
      ((detail_events L).map Prod.fst ++
        (((if b then email_events M else []).map Prod.fst) ++ [(1 : ℚ)])),
      31 / 50 ≤ y := by
    intro y hy
    rcases List.mem_cons.mp hy with h | h
    · subst h; norm_num
    · rcases List.mem_append.mp h with h | h
      · exact (detail_fst_mem h).1
      · rcases List.mem_append.mp h with h | h
        · linarith [(emailopt_fst_mem h).1]
        · simp at h; subst h; norm_num
  refine ⟨?_, ?_, ?_⟩
  · rw [events_of]
    simp only [List.map_cons, List.map_append]
    rw [List.chain'_cons']
    constructor
    · intro y hy
      have hmem := List.mem_of_mem_head? hy
      rcases List.mem_append.mp hmem with h | h
      · exact (search_fst_mem h).1
      · have := htail_ge y h
        linarith
    · refine chain'_glue (31 / 50) (search_events_chain T) ?_
        (fun x hx => (search_fst_mem hx).2) htail_ge
      rw [List.chain'_cons']
      constructor
      · intro y hy
        exact htail_ge y (List.mem_cons_of_mem _ (List.mem_of_mem_head? hy))
      · refine chain'_glue (23 / 25) (detail_events_chain L) ?_
          (fun x hx => (detail_fst_mem hx).2) ?_
        · refine chain'_glue 1 emailopt_chain ?_
            (fun x hx => (emailopt_fst_mem hx).2) ?_
          · exact List.chain'_singleton 1
          · intro y hy; simp at hy; subst hy; norm_num
        · intro y hy
          rcases List.mem_append.mp hy with h | h
          · exact (emailopt_fst_mem h).1
          · simp at h; subst h; norm_num
  · intro e he
    rw [events_of] at he
    rcases List.mem_cons.mp he with h | h
    · subst h; norm_num
    · rcases List.mem_append.mp h with h | h
      · have := search_fst_mem (List.mem_map_of_mem Prod.fst h)
        constructor <;> linarith [this.1, this.2]
      · rcases List.mem_cons.mp h with h | h
        · subst h; norm_num
        · rcases List.mem_append.mp h with h | h
          · have := detail_fst_mem (List.mem_map_of_mem Prod.fst h)
            constructor <;> linarith [this.1, this.2]
          · rcases List.mem_append.mp h with h | h
            · have := emailopt_fst_mem (List.mem_map_of_mem Prod.fst h)
              constructor <;> linarith [this.1, this.2]
            · simp at h; rw [h]; norm_num
  · rw [events_of]
    simp only [List.map_cons, List.map_append]
    exact List.mem_getLast?_cons (List.mem_getLast?_append_of_mem_getLast?
      (List.mem_getLast?_cons (List.mem_getLast?_append_of_mem_getLast?
        (List.mem_getLast?_append_of_mem_getLast? rfl))))

theorem chain_on_initial {l₁ l : List ℚ} (h : List.Chain' (· ≤ ·) l) (hp : l₁ <+: l) :
    List.Chain' (· ≤ ·) l₁ := by
  obtain ⟨t, rfl⟩ := hp
  exact (List.chain'_append.mp h).1

theorem goodEvents_failure {evs : List (ℚ × String)} (h : GoodEvents evs)
    {p : List (ℚ × String)} (hp : p <+: evs) (msg : String) :
    GoodEvents (failure_events p msg) := by
  obtain ⟨hchain, hbound, _⟩ := h
  have hmem : ∀ e ∈ p, 0 ≤ e.1 ∧ e.1 ≤ 1 := fun e he => hbound e (hp.subset he)
  refine ⟨?_, ?_, ?_⟩
  · rw [failure_events, List.map_append]
    refine chain'_glue 1 (chain_on_initial hchain (List.IsPrefix.map Prod.fst hp))
      (List.chain'_singleton 1) ?_ ?_
    · intro x hx
      obtain ⟨e, he, rfl⟩ := List.mem_map.mp hx
      exact (hmem e he).2
    · intro y hy; simp at hy; subst hy; norm_num
  · intro e he
    rcases List.mem_append.mp he with h | h
    · exact hmem e h
    · simp at h; rw [h]; norm_num
  · rw [failure_events, List.map_append]
    exact List.getLast?_concat _

/-- C8.  Across one grid-search invocation the progress fractions passed to the
callback are monotonically non-decreasing, lie in `[0, 1]`, and end with `1.0`;
and on the failure path — where the events emitted so far form a prefix of the
completed run's trace and the handler appends a final `1.0` event before
re-raising — the same holds. -/
theorem progress_events_contract
    (nearby_search : ℝ → ℝ → ℝ → String → Except String (List PlaceResult))
    (get_place_details : String → Except String (Option DetailResult))
    (extractor : String → Except String (List (List Char)))
    (center_lat center_lng radius_km : ℝ) (keywords : List String)
    (grid_size : ℕ) (extract_emails : Bool) :
    GoodEvents (search_grid nearby_search get_place_details extractor
      center_lat center_lng radius_km keywords grid_size extract_emails).2 ∧
    ∀ (p : List (ℚ × String)) (msg : String),
      p <+: (search_grid nearby_search get_place_details extractor
        center_lat center_lng radius_km keywords grid_size extract_emails).2 →
      GoodEvents (failure_events p msg) := by
  have hg : GoodEvents (search_grid nearby_search get_place_details extractor
      center_lat center_lng radius_km keywords grid_size extract_emails).2 := by
    simp only [search_grid]
    exact goodEvents_events_of _ _ _ _
  exact ⟨hg, fun p msg hp => goodEvents_failure hg hp msg⟩

/-- C8 witness: the failure-path contract evaluated on a concrete (empty-prefix)
failure of a concrete run. -/
theorem progress_events_contract_witness :
    GoodEvents (failure_events [] "error") :=
  (progress_events_contract cNearby cDetails cExtract 0 0 1 [] 0 false).2
    [] "error" List.nil_prefix

end Search

/-! ## Lemmas about the search fold -/

namespace Search

open Grid

theorem foldl_flatMap_eq {α β γ : Type} (g : β → List γ) (f : α → γ → α) :
    ∀ (l : List β) (init : α),
      (l.flatMap g).foldl f init = l.foldl (fun st b => (g b).foldl f st) init := by
  intro l
  induction l with
  | nil => intro init; rfl
  | cons b bs ih =>
    intro init
    rw [List.flatMap_cons, List.foldl_append, List.foldl_cons]
    exact ih _

theorem run_search_passes_eq_stream
    (nearby : ℝ → ℝ → ℝ → String → Except String (List PlaceResult))
    (clat clng r : ℝ) (gps : List (ℝ × ℝ × ℝ)) (kws : List String) :
    run_search_passes nearby clat clng r gps kws =
      accept_fold clat clng r ([], []) (search_stream nearby gps kws) := by
  rw [run_search_passes, search_stream, accept_fold, foldl_flatMap_eq]
  have heq : (fun (st : List PlaceResult × List String) (p : (ℝ × ℝ × ℝ) × String) =>
      ((pass_results nearby p.1 p.2).map (fun r0 => (p.2, r0))).foldl
        (fun st q => accept_step clat clng r q.1 st q.2) st) =
      (fun st p => (pass_results nearby p.1 p.2).foldl
        (accept_step clat clng r p.2) st) := by
    funext st p
    rw [List.foldl_map]
  rw [heq]

theorem accepted_of_place_id (clat clng : ℝ) (res : PlaceResult) (kw : String) :
    (accepted_of clat clng res kw).place_id = res.place_id := rfl

theorem RecFrom_append (clat clng r : ℝ) {pre : List (String × PlaceResult)}
    {rec : PlaceResult} (q : String × PlaceResult)
    (h : RecFrom clat clng r pre rec) : RecFrom clat clng r (pre ++ [q]) rec := by
  obtain ⟨a, kw, res, b, hsplit, h1, h2, h3, h4⟩ := h
  exact ⟨a, kw, res, b ++ [q], by rw [hsplit]; simp, h1, h2, h3, h4⟩

theorem accept_step_inv (clat clng r : ℝ) (pre : List (String × PlaceResult))
    (st : List PlaceResult × List String) (q : String × PlaceResult)
    (h : SearchInv clat clng r pre st) :
    SearchInv clat clng r (pre ++ [q]) (accept_step clat clng r q.1 st q.2) := by
  obtain ⟨hiff, hnodup, hseenall, hrec⟩ := h
  by_cases hseen : q.2.place_id ∈ st.2
  · rw [accept_step, if_pos hseen]
    refine ⟨hiff, hnodup, ?_, ?_⟩
    · intro p hp hacc
      rcases List.mem_append.mp hp with hp | hp
      · exact hseenall p hp hacc
      · simp at hp; subst hp; exact hseen
    · exact fun rec hr => RecFrom_append clat clng r q (hrec rec hr)
  · rw [accept_step, if_neg hseen]
    by_cases hacc : theGridCalculator.calculate_distance clat clng q.2.lat q.2.lng ≤ r
    · rw [if_pos hacc]
      have hnew_id : (accepted_of clat clng q.2 q.1).place_id = q.2.place_id := rfl
      have hid_notin : q.2.place_id ∉ st.1.map PlaceResult.place_id :=
        fun hmem => hseen ((hiff _).mpr hmem)
      refine ⟨?_, ?_, ?_, ?_⟩
      · intro x
        simp only [List.map_append, List.map_cons, List.map_nil, List.mem_append,
          List.mem_cons, List.mem_singleton, List.not_mem_nil, or_false, hnew_id]
        rw [hiff x]
        tauto
      · simp only [List.map_append, List.map_cons, List.map_nil]
        rw [List.nodup_append]
        refine ⟨hnodup, List.nodup_singleton _, ?_⟩
        intro x hx
        simp only [hnew_id, List.mem_singleton]
        intro hxe
        subst hxe
        exact hid_notin hx
      · intro p hp hacc2
        rcases List.mem_append.mp hp with hp | hp
        · exact List.mem_cons_of_mem _ (hseenall p hp hacc2)
        · simp at hp; subst hp
          exact List.mem_cons_self _ _
      · intro rec hr
        rcases List.mem_append.mp hr with hr | hr
        · exact RecFrom_append clat clng r q (hrec rec hr)
        · simp at hr
          subst hr
          refine ⟨pre, q.1, q.2, [], by simp, rfl, hacc, rfl, ?_⟩
          intro p hp hpid hacc2
          have h2 := hseenall p hp hacc2
          rw [hpid] at h2
          exact hseen h2
    · rw [if_neg hacc]
      refine ⟨hiff, hnodup, ?_, ?_⟩
      · intro p hp hacc2
        rcases List.mem_append.mp hp with hp | hp
        · exact hseenall p hp hacc2
        · simp at hp; subst hp; exact absurd hacc2 hacc
      · exact fun rec hr => RecFrom_append clat clng r q (hrec rec hr)

theorem accept_fold_inv (clat clng r : ℝ) :
    ∀ (stream pre : List (String × PlaceResult)) (st : List PlaceResult × List String),
      SearchInv clat clng r pre st →
      SearchInv clat clng r (pre ++ stream) (accept_fold clat clng r st stream) := by
  intro stream
  induction stream with
  | nil => intro pre st h; simpa [accept_fold] using h
  | cons q qs ih =>
    intro pre st h
    rw [accept_fold, List.foldl_cons]
    have h1 := accept_step_inv clat clng r pre st q h
    have h2 := ih (pre ++ [q]) _ h1
    rw [List.append_assoc] at h2
    simpa [accept_fold] using h2

theorem searchInv_init (clat clng r : ℝ) : SearchInv clat clng r [] ([], []) := by
  refine ⟨fun x => by simp, by simp, by simp, by simp⟩

theorem run_search_passes_inv
    (nearby : ℝ → ℝ → ℝ → String → Except String (List PlaceResult))
    (clat clng r : ℝ) (gps : List (ℝ × ℝ × ℝ)) (kws : List String) :
    (((run_search_passes nearby clat clng r gps kws).1.map PlaceResult.place_id).Nodup) ∧
    ∀ rec ∈ (run_search_passes nearby clat clng r gps kws).1,
      RecFrom clat clng r (search_stream nearby gps kws) rec := by
  have h := accept_fold_inv clat clng r (search_stream nearby gps kws) [] ([], [])
    (searchInv_init clat clng r)
  rw [← run_search_passes_eq_stream] at h
  rw [List.nil_append] at h
  exact ⟨h.2.1, h.2.2.2⟩

end Search

namespace Search

open Grid

theorem enrich_place_fields (f : String → Except String (Option DetailResult))
    (p : PlaceResult) :
    (enrich_place f p).place_id = p.place_id ∧
    (enrich_place f p).distance_from_center = p.distance_from_center ∧
    (enrich_place f p).search_keyword = p.search_keyword := by
  unfold enrich_place
  by_cases h : p.place_id = ""
  · rw [if_pos h]; exact ⟨rfl, rfl, rfl⟩
  · rw [if_neg h]
    cases f p.place_id with
    | error _ => exact ⟨rfl, rfl, rfl⟩
    | ok o => cases o <;> exact ⟨rfl, rfl, rfl⟩

theorem email_extraction_fields (ex : String → Except String (List (List Char)))
    (p : PlaceResult) :
    (apply_email_extraction ex p).place_id = p.place_id ∧
    (apply_email_extraction ex p).distance_from_center = p.distance_from_center ∧
    (apply_email_extraction ex p).search_keyword = p.search_keyword := by
  unfold apply_email_extraction
  cases p.website with
  | none => exact ⟨rfl, rfl, rfl⟩
  | some w =>
    dsimp only
    by_cases h : w = ""
    · rw [if_pos h]; exact ⟨rfl, rfl, rfl⟩
    · rw [if_neg h]
      cases ex w with
      | error _ => exact ⟨rfl, rfl, rfl⟩
      | ok es => exact ⟨rfl, rfl, rfl⟩

theorem ensure_email_fields_fields (p : PlaceResult) :
    (ensure_email_fields p).place_id = p.place_id ∧
    (ensure_email_fields p).distance_from_center = p.distance_from_center ∧
    (ensure_email_fields p).search_keyword = p.search_keyword :=
  ⟨rfl, rfl, rfl⟩

/-- Every record of the final output of `search_grid` corresponds to a record of
the raw search phase with the same id, stored distance and keyword tag; and the
final id list is a permutation of the search phase's id list. -/
theorem search_grid_output_transfer
    (nearby : ℝ → ℝ → ℝ → String → Except String (List PlaceResult))
    (gd : String → Except String (Option DetailResult))
    (ex : String → Except String (List (List Char)))
    (clat clng r : ℝ) (kws : List String) (n : ℕ) (xe : Bool) :
    (((search_grid nearby gd ex clat clng r kws n xe).1.map PlaceResult.place_id).Perm
      ((run_search_passes nearby clat clng r
        (theGridCalculator.calculate_grid_points clat clng r n) kws).1.map
          PlaceResult.place_id)) ∧
    ∀ rec ∈ (search_grid nearby gd ex clat clng r kws n xe).1,
      ∃ rec0 ∈ (run_search_passes nearby clat clng r
          (theGridCalculator.calculate_grid_points clat clng r n) kws).1,
        rec.place_id = rec0.place_id ∧
        rec.distance_from_center = rec0.distance_from_center ∧
        rec.search_keyword = rec0.search_keyword := by
  simp only [search_grid]
  set all_results := (run_search_passes nearby clat clng r
    (theGridCalculator.calculate_grid_points clat clng r n) kws).1 with hall
  set enriched := enrich_places_with_details gd all_results with henr
  set with_emails := if xe then
      (enriched.map (apply_email_extraction ex)).map ensure_email_fields
    else enriched with hwe
  have hperm : (with_emails.mergeSort
      (fun a b => decide (sortKey a ≤ sortKey b))).Perm with_emails :=
    List.mergeSort_perm _ _
  have hwe_ids : with_emails.map PlaceResult.place_id =
      all_results.map PlaceResult.place_id := by
    rw [hwe, henr]
    by_cases hxe : xe
    · rw [if_pos hxe]
      unfold enrich_places_with_details
      simp only [List.map_map]
      apply List.map_congr_left
      intro p _
      simp only [Function.comp]
      rw [(ensure_email_fields_fields _).1, (email_extraction_fields ex _).1,
        (enrich_place_fields gd p).1]
    · rw [if_neg hxe]
      unfold enrich_places_with_details
      rw [List.map_map]
      apply List.map_congr_left
      intro p _
      exact (enrich_place_fields gd p).1
  constructor
  · have hq := hperm.map PlaceResult.place_id
    rw [hwe_ids] at hq
    exact hq
  · intro rec hrec
    have hrec2 : rec ∈ with_emails := hperm.mem_iff.mp hrec
    rw [hwe] at hrec2
    by_cases hxe : xe
    · rw [if_pos hxe] at hrec2
      simp only [List.mem_map] at hrec2
      obtain ⟨p1, ⟨p0, hp0, rfl⟩, rfl⟩ := hrec2
      rw [henr] at hp0
      unfold enrich_places_with_details at hp0
      obtain ⟨p, hp, rfl⟩ := List.mem_map.mp hp0
      refine ⟨p, hp, ?_, ?_, ?_⟩
      · rw [(ensure_email_fields_fields _).1, (email_extraction_fields ex _).1,
          (enrich_place_fields gd p).1]
      · rw [(ensure_email_fields_fields _).2.1, (email_extraction_fields ex _).2.1,
          (enrich_place_fields gd p).2.1]
      · rw [(ensure_email_fields_fields _).2.2, (email_extraction_fields ex _).2.2,
          (enrich_place_fields gd p).2.2]
    · rw [if_neg hxe] at hrec2
      rw [henr] at hrec2
      unfold enrich_places_with_details at hrec2
      obtain ⟨p, hp, rfl⟩ := List.mem_map.mp hrec2
      exact ⟨p, hp, (enrich_place_fields gd p).1, (enrich_place_fields gd p).2.1,
        (enrich_place_fields gd p).2.2⟩

end Search

namespace Search

open Grid

/-- C2.  No two entries of a grid search's final result share a `place_id`, and
each returned record is tagged with the keyword of the pass that first discovered
it within the radius: the processed stream splits around an in-radius occurrence
of the record's id whose keyword is the record's tag, with no earlier in-radius
occurrence of that id. -/
theorem dedup_and_first_discovery
    (nearby : ℝ → ℝ → ℝ → String → Except String (List PlaceResult))
    (gd : String → Except String (Option DetailResult))
    (ex : String → Except String (List (List Char)))
    (clat clng r : ℝ) (kws : List String) (n : ℕ) (xe : Bool) :
    (((search_grid nearby gd ex clat clng r kws n xe).1.map PlaceResult.place_id).Nodup) ∧
    ∀ rec ∈ (search_grid nearby gd ex clat clng r kws n xe).1,
      ∃ a kw res b,
        search_stream nearby (theGridCalculator.calculate_grid_points clat clng r n) kws
          = a ++ (kw, res) :: b ∧
        res.place_id = rec.place_id ∧
        Accepts clat clng r res ∧
        rec.search_keyword = some kw ∧
        ∀ q ∈ a, q.2.place_id = rec.place_id → ¬ Accepts clat clng r q.2 := by
  obtain ⟨hperm, htrans⟩ := search_grid_output_transfer nearby gd ex clat clng r kws n xe
  obtain ⟨hnodup, hfrom⟩ := run_search_passes_inv nearby clat clng r
    (theGridCalculator.calculate_grid_points clat clng r n) kws
  constructor
  · exact hperm.nodup_iff.mpr hnodup
  · intro rec hrec
    obtain ⟨rec0, hrec0, hid, _, hkw⟩ := htrans rec hrec
    obtain ⟨a, kw, res, b, hsplit, h1, h2, h3, h4⟩ := hfrom rec0 hrec0
    refine ⟨a, kw, res, b, hsplit, by rw [h1, hid], h2, ?_, ?_⟩
    · rw [hkw, h3]; rfl
    · intro q hq hqid
      exact h4 q hq (by rw [hqid, hid])

/-- C1 (amended).  Every record of a completed grid search stores a distance that
exceeds the criteria's radius by at most `0.005` (half of the two-decimal rounding
step): the true distance at acceptance is at most `radius_km`, and only the final
rounding can push the stored value above it. -/
theorem stored_distance_bound
    (nearby : ℝ → ℝ → ℝ → String → Except String (List PlaceResult))
    (gd : String → Except String (Option DetailResult))
    (ex : String → Except String (List (List Char)))
    (clat clng r : ℝ) (kws : List String) (n : ℕ) (xe : Bool) :
    ∀ rec ∈ (search_grid nearby gd ex clat clng r kws n xe).1,
      ∀ d, rec.distance_from_center = some d → d ≤ r + 1 / 200 := by
  obtain ⟨_, htrans⟩ := search_grid_output_transfer nearby gd ex clat clng r kws n xe
  obtain ⟨_, hfrom⟩ := run_search_passes_inv nearby clat clng r
    (theGridCalculator.calculate_grid_points clat clng r n) kws
  intro rec hrec d hd
  obtain ⟨rec0, hrec0, _, hdist, _⟩ := htrans rec hrec
  obtain ⟨a, kw, res, b, _, _, hacc, hshape, _⟩ := hfrom rec0 hrec0
  rw [hshape] at hdist
  rw [hdist] at hd
  have hd2 : d = round2 (theGridCalculator.calculate_distance clat clng res.lat res.lng) := by
    exact Option.some_injective _ hd.symm
  have hround : round2 (theGridCalculator.calculate_distance clat clng res.lat res.lng) ≤
      theGridCalculator.calculate_distance clat clng res.lat res.lng + 1 / 200 := by
    rw [round2]
    have habs := abs_sub_round (100 * theGridCalculator.calculate_distance clat clng res.lat res.lng)
    rw [abs_le] at habs
    have := habs.1
    linarith
  rw [hd2]
  have : theGridCalculator.calculate_distance clat clng res.lat res.lng ≤ r := hacc
  linarith

end Search

/-! ## The concrete counterexample run -/

namespace Search

open Grid

theorem calculate_distance_self (gc : GridCalculator) (lat lng : ℝ) :
    gc.calculate_distance lat lng lat lng = 0 := by
  rw [GridCalculator.calculate_distance]
  simp [sub_self, Real.sin_zero, Real.sqrt_zero, Real.arcsin_zero]

theorem grid_points_one (gc : GridCalculator) (clat clng r : ℝ) (hr : 0 ≤ r) :
    gc.calculate_grid_points clat clng r 1 = [(clat, clng, r)] := by
  rw [GridCalculator.calculate_grid_points]
  have key : ∀ x y : ℝ, x = clat → y = clng →
      gc.calculate_distance clat clng x y ≤ r := by
    rintro x y rfl rfl
    rw [calculate_distance_self]
    exact hr
  have hrange : List.range 1 = [0] := rfl
  rw [hrange]
  simp only [List.flatMap_cons, List.flatMap_nil, List.filterMap_cons,
    List.filterMap_nil, List.append_nil]
  rw [if_pos (key _ _ (by push_cast; ring) (by push_cast; ring))]
  simp only [List.cons.injEq, and_true]
  refine Prod.ext ?_ (Prod.ext ?_ ?_) <;> push_cast <;> ring

theorem cDistance : theGridCalculator.calculate_distance 0 0 0 2 =
    6371 * (Real.pi / 90) := by
  rw [GridCalculator.calculate_distance]
  have h0 : radiansOf 0 = 0 := by simp [radiansOf]
  have h2 : radiansOf 2 = Real.pi / 90 := by rw [radiansOf]; ring
  rw [h0, h2]
  have hs : Real.sin ((0 - 0) / 2) = 0 := by norm_num
  have hcos : Real.cos 0 = 1 := Real.cos_zero
  rw [hs, hcos]
  have hrw : (0 : ℝ) ^ 2 + 1 * 1 * Real.sin ((Real.pi / 90 - 0) / 2) ^ 2 =
      Real.sin (Real.pi / 180) ^ 2 := by ring_nf
  rw [hrw]
  have hnn : 0 ≤ Real.sin (Real.pi / 180) := by
    apply Real.sin_nonneg_of_nonneg_of_le_pi
    · positivity
    · nlinarith [Real.pi_pos]
  rw [Real.sqrt_sq hnn]
  rw [Real.arcsin_sin (by nlinarith [Real.pi_pos]) (by nlinarith [Real.pi_pos])]
  rw [Grid.theGridCalculator]
  ring

theorem cDistance_le : 6371 * (Real.pi / 90) ≤ cRadius := by
  rw [cRadius]
  nlinarith [Real.pi_lt_d6]

theorem cRound : round2 (6371 * (Real.pi / 90)) = 22239 / 100 := by
  rw [round2]
  have hr : round (100 * (6371 * (Real.pi / 90))) = 22239 := by
    rw [round_eq]
    rw [Int.floor_eq_iff]
    constructor
    · push_cast
      nlinarith [Real.pi_gt_d6]
    · push_cast
      nlinarith [Real.pi_lt_d6]
  rw [hr]
  norm_num

theorem cRun_results : cRun.1 = [cRec] := by
  rw [cRun]
  simp only [search_grid]
  rw [grid_points_one theGridCalculator 0 0 cRadius (by rw [cRadius]; norm_num)]
  have hpass : run_search_passes cNearby 0 0 cRadius [(0, 0, cRadius)] ["cafe"] =
      ([cRec], ["p1"]) := by
    rw [run_search_passes]
    simp only [search_passes, List.flatMap_cons, List.flatMap_nil, List.map_cons,
      List.map_nil, List.append_nil, List.foldl_cons, List.foldl_nil]
    rw [pass_results]
    simp only [cNearby]
    rw [List.foldl_cons, List.foldl_nil]
    rw [accept_step]
    rw [if_neg (by simp)]
    have hlat : ({ place_id := "p1", lat := 0, lng := 2 } : PlaceResult).lat = 0 := rfl
    have hlng : ({ place_id := "p1", lat := 0, lng := 2 } : PlaceResult).lng = 2 := rfl
    rw [hlat, hlng, cDistance, if_pos cDistance_le, cRound]
    rfl
  rw [hpass]
  simp only [enrich_places_with_details, List.map_cons, List.map_nil]
  have henr : enrich_place cDetails cRec = cRec := by
    rw [enrich_place]
    rw [if_neg (by rw [cRec]; simp)]
    rfl
  rw [henr]
  rw [if_neg (by simp)]
  rw [List.mergeSort_singleton]

/-- C1 counterexample: the concrete completed run returns one record whose stored
`distance_from_center` (`222.39`) strictly exceeds the criteria's radius
(`222.3899`), because the stored value is the two-decimal rounding of the true
distance `6371·π/90 ≈ 222.38985`. -/
theorem stored_distance_counterexample :
    cRun.1.map PlaceResult.distance_from_center = [some (22239 / 100)] ∧
    ¬ ((22239 : ℝ) / 100 ≤ cRadius) := by
  constructor
  · rw [cRun_results]; rfl
  · rw [cRadius]; norm_num

/-- C1 witness: the amended bound evaluated on the concrete run's record. -/
theorem stored_distance_bound_witness :
    (22239 : ℝ) / 100 ≤ cRadius + 1 / 200 :=
  stored_distance_bound cNearby cDetails cExtract 0 0 cRadius ["cafe"] 1 false
    cRec (show cRec ∈ cRun.1 by rw [cRun_results]; exact List.mem_singleton_self _)
    (22239 / 100) rfl

/-- C2 witness: the dedup and first-discovery property evaluated on the concrete
run's record. -/
theorem dedup_and_first_discovery_witness :
    ∃ a kw res b,
      search_stream cNearby (theGridCalculator.calculate_grid_points 0 0 cRadius 1)
        ["cafe"] = a ++ (kw, res) :: b ∧
      res.place_id = cRec.place_id ∧
      Accepts 0 0 cRadius res ∧
      cRec.search_keyword = some kw ∧
      ∀ q ∈ a, q.2.place_id = cRec.place_id → ¬ Accepts 0 0 cRadius q.2 :=
  (dedup_and_first_discovery cNearby cDetails cExtract 0 0 cRadius ["cafe"] 1 false).2
    cRec (show cRec ∈ cRun.1 by rw [cRun_results]; exact List.mem_singleton_self _)

end Search

/-! ## Non-emptiness of the grid -/

namespace Grid

/-- Unfolds `calculate_distance` into the explicit haversine expression, so that
bounds proved on the latter transfer definitionally. -/
theorem distance_form (clat clng glat glng r : ℝ)
    (h : 6371 * (2 * Real.arcsin (Real.sqrt
      (Real.sin ((radiansOf glat - radiansOf clat) / 2) ^ 2 +
        Real.cos (radiansOf clat) * Real.cos (radiansOf glat) *
          Real.sin ((radiansOf glng - radiansOf clng) / 2) ^ 2))) ≤ r) :
    theGridCalculator.calculate_distance clat clng glat glng ≤ r := h

theorem sin_sq_le_sq (z : ℝ) : Real.sin z ^ 2 ≤ z ^ 2 := by
  have key : ∀ w : ℝ, 0 ≤ w → Real.sin w ^ 2 ≤ w ^ 2 := by
    intro w hw
    rcases le_or_lt w 1 with h1 | h1
    · have h0 : 0 ≤ Real.sin w :=
        Real.sin_nonneg_of_nonneg_of_le_pi hw (by nlinarith [Real.pi_gt_d4])
      have h2 := Real.sin_le hw
      nlinarith
    · have h2 := Real.sin_le_one w
      have h3 := Real.neg_one_le_sin w
      nlinarith
  rcases le_or_lt 0 z with hz | hz
  · exact key z hz
  · have h4 := key (-z) (by linarith)
    rw [Real.sin_neg] at h4
    nlinarith [h4]

set_option maxHeartbeats 1000000 in
/-- Core one-variable inequality behind grid non-emptiness: for a latitude
half-offset `x` at most `0.501·μ` (where `μ = r / 12742` is the half-angle
matching the radius), the haversine argument at the off-center grid point is at
most `sin² μ`. -/
theorem core_bound {x μ : ℝ} (hx : 0 < x) (hxμ : x ≤ (501 / 1000) * μ)
    (hμ : μ ≤ Real.pi / 2) :
    x ^ 2 + Real.sin x ^ 2 * (1 - 2 * x ^ 2) ≤ Real.sin μ ^ 2 := by
  have hμ0 : 0 < μ := by nlinarith
  have hxμ2 : x ≤ μ := by nlinarith
  have hμu : μ ≤ 1.5708 := by nlinarith [Real.pi_lt_d4]
  have hx78 : x ≤ 0.787 := by nlinarith
  have hsx0 : 0 ≤ Real.sin x :=
    Real.sin_nonneg_of_nonneg_of_le_pi (le_of_lt hx) (by nlinarith [Real.pi_gt_d4])
  have hsxx : Real.sin x ≤ x := Real.sin_le (le_of_lt hx)
  have hsμ0 : 0 ≤ Real.sin μ :=
    Real.sin_nonneg_of_nonneg_of_le_pi (le_of_lt hμ0) (by nlinarith [Real.pi_gt_d4])
  rcases le_or_lt (1 - 2 * x ^ 2) 0 with hc | hc
  · -- the second summand is nonpositive and sin μ is close to 1
    have hx2 : (1 : ℝ) / 2 ≤ x ^ 2 := by nlinarith
    have hμ2 : (1992 : ℝ) / 1000 ≤ μ ^ 2 := by nlinarith
    have hμl : (1.411 : ℝ) ≤ μ := by nlinarith
    have hw0 : 0 ≤ Real.pi / 2 - μ := by linarith
    have hwu : Real.pi / 2 - μ ≤ 0.1598 := by nlinarith [Real.pi_lt_d4]
    have hcw : Real.sin μ ≥ 1 - (Real.pi / 2 - μ) ^ 2 / 2 := by
      have h9 : 1 - (Real.pi / 2 - μ) ^ 2 / 2 ≤ Real.cos (Real.pi / 2 - μ) :=
        Real.one_sub_sq_div_two_le_cos
      rwa [Real.cos_pi_div_two_sub] at h9
    have hsin : Real.sin μ ≥ 0.987 := by nlinarith
    nlinarith [sq_nonneg (Real.sin x)]
  · -- LHS ≤ 2x² − 2x⁴
    have hstep : x ^ 2 + Real.sin x ^ 2 * (1 - 2 * x ^ 2) ≤ 2 * x ^ 2 - 2 * x ^ 4 := by
      nlinarith [sin_sq_le_sq x]
    rcases le_or_lt μ 0.99 with hμ99 | hμ99
    · have hcube := Real.sin_gt_sub_cube hμ0 (by linarith)
      have hμsq : μ ^ 2 ≤ 0.9801 := by nlinarith
      have hpos : 0 < μ - μ ^ 3 / 4 := by
        nlinarith [mul_nonneg (le_of_lt hμ0) (show (0 : ℝ) ≤ 0.9801 - μ ^ 2 by linarith)]
      have hsq : (μ - μ ^ 3 / 4) ^ 2 ≤ Real.sin μ ^ 2 :=
        pow_le_pow_left₀ hpos.le hcube.le 2
      have ha : x ^ 2 ≤ (501 / 1000 * μ) ^ 2 := pow_le_pow_left₀ hx.le hxμ 2
      have hb : (754975 : ℝ) / 1000000 ≤ 1 - μ ^ 2 / 4 := by linarith [hμsq]
      have hb2 : ((754975 : ℝ) / 1000000) ^ 2 ≤ (1 - μ ^ 2 / 4) ^ 2 :=
        pow_le_pow_left₀ (by norm_num) hb 2
      have hc2 : (μ - μ ^ 3 / 4) ^ 2 = μ ^ 2 * (1 - μ ^ 2 / 4) ^ 2 := by ring
      have he : (502002 : ℝ) / 1000000 * μ ^ 2 ≤ μ ^ 2 * (1 - μ ^ 2 / 4) ^ 2 := by
        have h1 : ((502002 : ℝ) / 1000000) ≤ ((754975 : ℝ) / 1000000) ^ 2 := by norm_num
        have h2 : μ ^ 2 * ((502002 : ℝ) / 1000000) ≤ μ ^ 2 * (1 - μ ^ 2 / 4) ^ 2 :=
          mul_le_mul_of_nonneg_left (le_trans h1 hb2) (sq_nonneg μ)
        linarith
      have hd : 2 * x ^ 2 - 2 * x ^ 4 ≤ (502002 : ℝ) / 1000000 * μ ^ 2 := by
        have h3 : 2 * x ^ 2 - 2 * x ^ 4 ≤ 2 * x ^ 2 := by nlinarith [sq_nonneg (x ^ 2)]
        have h4 : 2 * x ^ 2 ≤ 2 * (501 / 1000 * μ) ^ 2 := by linarith
        have h5 : 2 * ((501 : ℝ) / 1000 * μ) ^ 2 = (502002 : ℝ) / 1000000 * μ ^ 2 := by ring
        linarith
      linarith [hstep, hsq, hd, he, hc2.le]
    · have hmono : Real.sin 0.99 ≤ Real.sin μ := by
        apply Real.sin_le_sin_of_le_of_le_pi_div_two ?_ hμ ?_
        · nlinarith [Real.pi_gt_d4]
        · linarith
      have hcube : (0.99 : ℝ) - 0.99 ^ 3 / 4 < Real.sin 0.99 :=
        Real.sin_gt_sub_cube (by norm_num) (by norm_num)
      have hsin : Real.sin μ ≥ 0.7474 := by
        have : (0.99 : ℝ) - 0.99 ^ 3 / 4 ≥ 0.7474 := by norm_num
        linarith
      refine le_trans hstep ?_
      nlinarith [sq_nonneg (2 * x ^ 2 - 1)]

set_option maxHeartbeats 1000000 in
/-- At the grid point one latitude step away from the equator (angle `ψ + 2x`
with `ψ` the absolute center latitude in radians), the haversine argument is
bounded by `sin² μ`; `z` is the longitude half-offset, which satisfies
`cos ψ · z = x` except at the poles, where it degenerates to `0`. -/
theorem away_A_le {ψ x z μ : ℝ} (hψ0 : 0 ≤ ψ) (hψu : ψ ≤ Real.pi / 2)
    (hx : 0 < x) (hxμ : x ≤ (501 / 1000) * μ) (hμ : μ ≤ Real.pi / 2)
    (hz : Real.cos ψ * z = x ∨ z = 0) :
    Real.sin x ^ 2 + Real.cos ψ * Real.cos (ψ + 2 * x) * Real.sin z ^ 2 ≤
      Real.sin μ ^ 2 := by
  have hμ0 : 0 < μ := by nlinarith
  have hxμ2 : x ≤ μ := by nlinarith
  have ht0 : 0 ≤ Real.cos ψ :=
    Real.cos_nonneg_of_neg_pi_div_two_le_of_le (by linarith) hψu
  have hsψ : 0 ≤ Real.sin ψ :=
    Real.sin_nonneg_of_nonneg_of_le_pi hψ0 (by nlinarith [Real.pi_gt_d4])
  have h2x : 2 * x ≤ Real.pi := by nlinarith
  have hs2x : 0 ≤ Real.sin (2 * x) :=
    Real.sin_nonneg_of_nonneg_of_le_pi (by linarith) h2x
  have hsx0 : 0 ≤ Real.sin x :=
    Real.sin_nonneg_of_nonneg_of_le_pi hx.le (by linarith)
  have hsμ0 : 0 ≤ Real.sin μ :=
    Real.sin_nonneg_of_nonneg_of_le_pi hμ0.le (by nlinarith [Real.pi_gt_d4])
  have hsinxμ : Real.sin x ^ 2 ≤ Real.sin μ ^ 2 := by
    have hm : Real.sin x ≤ Real.sin μ :=
      Real.sin_le_sin_of_le_of_le_pi_div_two (by linarith) hμ hxμ2
    nlinarith
  have hcos_le : Real.cos (ψ + 2 * x) ≤ Real.cos ψ * Real.cos (2 * x) := by
    rw [Real.cos_add]
    nlinarith [mul_nonneg hsψ hs2x]
  have hterm : Real.cos ψ * Real.cos (ψ + 2 * x) * Real.sin z ^ 2 ≤
      Real.cos ψ ^ 2 * Real.cos (2 * x) * Real.sin z ^ 2 := by
    have hmul := mul_le_mul_of_nonneg_left hcos_le ht0
    have hnn : 0 ≤ Real.sin z ^ 2 := sq_nonneg _
    nlinarith [mul_le_mul_of_nonneg_right hmul hnn]
  have hcos2 : Real.cos (2 * x) = 1 - 2 * Real.sin x ^ 2 := by
    have h1 := Real.cos_two_mul x
    have h2 := Real.sin_sq_add_cos_sq x
    linarith
  rcases hz with hz | hz
  · have htz : Real.cos ψ ^ 2 * Real.sin z ^ 2 ≤ x ^ 2 := by
      have h1 := sin_sq_le_sq z
      have h2 : Real.cos ψ ^ 2 * Real.sin z ^ 2 ≤ Real.cos ψ ^ 2 * z ^ 2 :=
        mul_le_mul_of_nonneg_left h1 (sq_nonneg _)
      have h3 : Real.cos ψ ^ 2 * z ^ 2 = (Real.cos ψ * z) ^ 2 := by ring
      rw [h3, hz] at h2
      exact h2
    rcases le_or_lt (Real.cos (2 * x)) 0 with hc | hc
    · have hneg : Real.cos ψ ^ 2 * Real.cos (2 * x) * Real.sin z ^ 2 ≤ 0 := by
        have := mul_nonneg (sq_nonneg (Real.cos ψ)) (sq_nonneg (Real.sin z))
        nlinarith
      nlinarith [hterm, hsinxμ]
    · have hb : Real.cos ψ ^ 2 * Real.cos (2 * x) * Real.sin z ^ 2 ≤
          Real.cos (2 * x) * x ^ 2 := by
        have := mul_le_mul_of_nonneg_right htz hc.le
        nlinarith
      have hkey := core_bound hx hxμ hμ
      have hring : Real.sin x ^ 2 + Real.cos (2 * x) * x ^ 2 =
          x ^ 2 + Real.sin x ^ 2 * (1 - 2 * x ^ 2) := by
        rw [hcos2]; ring
      nlinarith [hterm, hb, hkey]
  · rw [hz]
    simp only [Real.sin_zero]
    nlinarith [hsinxμ]

set_option maxHeartbeats 1000000 in
/-- The grid point one latitude step from the center in the direction away from
the equator (offset `e · r/111/n` with `e = ±1`) and one longitude step east is
within `radius_km` of the center. -/
theorem distance_away_le (clat clng r : ℝ) (n : ℕ) (hn : 2 ≤ n)
    (h1 : -90 ≤ clat) (h2 : clat ≤ 90) (hr : 0 < r) (e : ℝ)
    (he : (0 ≤ clat ∧ e = 1) ∨ (clat < 0 ∧ e = -1)) :
    theGridCalculator.calculate_distance clat clng (clat + e * (r / 111 / n))
      (clng + r / (111 * Real.cos (radiansOf clat)) / n) ≤ r := by
  apply distance_form
  have hn0 : (0 : ℝ) < (n : ℝ) := by
    have : 0 < n := by omega
    exact_mod_cast this
  have hπ := Real.pi_pos
  set x := r * Real.pi / (39960 * (n : ℝ)) with hxdef
  have hx0 : 0 < x := by rw [hxdef]; positivity
  have hsinlat : Real.sin ((radiansOf (clat + e * (r / 111 / n)) - radiansOf clat) / 2) ^ 2
      = Real.sin x ^ 2 := by
    have hdlat : (radiansOf (clat + e * (r / 111 / n)) - radiansOf clat) / 2 = e * x := by
      rw [radiansOf, radiansOf, hxdef]
      field_simp
      ring
    rw [hdlat]
    rcases he with ⟨_, he1⟩ | ⟨_, he1⟩ <;> rw [he1]
    · ring_nf
    · rw [neg_one_mul, Real.sin_neg]; ring
  set t := Real.cos (radiansOf clat) with htdef
  set z := (radiansOf (clng + r / (111 * t) / n) - radiansOf clng) / 2 with hzdef
  have hzz : t * z = x ∨ z = 0 := by
    by_cases ht : t = 0
    · right
      rw [hzdef, radiansOf, radiansOf, ht]
      norm_num
    · left
      rw [hzdef, radiansOf, radiansOf, hxdef]
      field_simp
      ring
  have hφ2 : radiansOf (clat + e * (r / 111 / n)) = radiansOf clat + e * (2 * x) := by
    rw [radiansOf, radiansOf, hxdef]
    field_simp
    ring
  rcases le_or_lt r (6371 * Real.pi) with hsmall | hbig
  · set μ := r / 12742 with hμdef
    have hμu : μ ≤ Real.pi / 2 := by rw [hμdef]; linarith
    have hμ0 : 0 < μ := by rw [hμdef]; linarith
    have hsμ0 : 0 ≤ Real.sin μ :=
      Real.sin_nonneg_of_nonneg_of_le_pi hμ0.le (by linarith)
    have hxμ : x ≤ (501 / 1000) * μ := by
      have hxe : x * (39960 * (n : ℝ)) = r * Real.pi := by
        rw [hxdef]; field_simp
      have hn2 : (2 : ℝ) ≤ (n : ℝ) := by exact_mod_cast hn
      have hπu := Real.pi_lt_d4
      rw [hμdef]
      nlinarith [mul_le_mul_of_nonneg_left hn2 (le_of_lt hx0)]
    have hA : Real.sin x ^ 2 + t * Real.cos (radiansOf (clat + e * (r / 111 / n))) *
        Real.sin z ^ 2 ≤ Real.sin μ ^ 2 := by
      rcases he with ⟨hc0, he1⟩ | ⟨hc0, he1⟩
      · have hψ0 : 0 ≤ radiansOf clat := by
          rw [radiansOf]; positivity
        have hψu : radiansOf clat ≤ Real.pi / 2 := by
          rw [radiansOf]; nlinarith
        have h := away_A_le hψ0 hψu hx0 hxμ hμu hzz
        rw [hφ2, he1]
        calc Real.sin x ^ 2 + t * Real.cos (radiansOf clat + 1 * (2 * x)) * Real.sin z ^ 2
            = Real.sin x ^ 2 + Real.cos (radiansOf clat) *
              Real.cos (radiansOf clat + 2 * x) * Real.sin z ^ 2 := by
              rw [htdef]; ring_nf
          _ ≤ Real.sin μ ^ 2 := h
      · have hψ0 : 0 ≤ -radiansOf clat := by
          rw [radiansOf]
          have : clat * Real.pi ≤ 0 := mul_nonpos_of_nonpos_of_nonneg hc0.le hπ.le
          linarith [div_nonpos_of_nonpos_of_nonneg this (by norm_num : (0:ℝ) ≤ 180)]
        have hψu : -radiansOf clat ≤ Real.pi / 2 := by
          rw [radiansOf]; nlinarith
        have hzz2 : Real.cos (-radiansOf clat) * z = x ∨ z = 0 := by
          rw [Real.cos_neg]; exact hzz
        have h := away_A_le hψ0 hψu hx0 hxμ hμu hzz2
        rw [hφ2, he1]
        calc Real.sin x ^ 2 + t * Real.cos (radiansOf clat + -1 * (2 * x)) * Real.sin z ^ 2
            = Real.sin x ^ 2 + Real.cos (-radiansOf clat) *
              Real.cos (-radiansOf clat + 2 * x) * Real.sin z ^ 2 := by
              rw [htdef, Real.cos_neg]
              have : radiansOf clat + -1 * (2 * x) = -(-radiansOf clat + 2 * x) := by ring
              rw [this, Real.cos_neg]
          _ ≤ Real.sin μ ^ 2 := h
    have hsqrt : Real.sqrt (Real.sin x ^ 2 + t * Real.cos (radiansOf (clat + e * (r / 111 / n))) *
        Real.sin z ^ 2) ≤ Real.sin μ := by
      have h7 := Real.sqrt_le_sqrt hA
      rwa [Real.sqrt_sq hsμ0] at h7
    have harc := Real.monotone_arcsin hsqrt
    rw [Real.arcsin_sin (by linarith) hμu] at harc
    rw [hsinlat]
    have hfin : 6371 * (2 * Real.arcsin (Real.sqrt (Real.sin x ^ 2 +
        t * Real.cos (radiansOf (clat + e * (r / 111 / n))) * Real.sin z ^ 2))) ≤
        6371 * (2 * μ) := by nlinarith [harc]
    rw [hμdef] at hfin
    linarith
  · have harc := Real.arcsin_le_pi_div_two (Real.sqrt (Real.sin ((radiansOf (clat + e * (r / 111 / n)) - radiansOf clat) / 2) ^ 2 +
      t * Real.cos (radiansOf (clat + e * (r / 111 / n))) * Real.sin z ^ 2))
    nlinarith [harc]

/-- The grid point at indices `(i, j)` belongs to the planner's output whenever
its distance from the center passes the filter. -/
theorem mem_grid_point (clat clng r : ℝ) (n i j : ℕ) (hi : i < n) (hj : j < n)
    (hd : theGridCalculator.calculate_distance clat clng
      (clat - r / 111 + ((i : ℝ) + 0.5) * (2 * (r / 111) / (n : ℝ)))
      (clng - r / (111 * Real.cos (radiansOf clat)) +
        ((j : ℝ) + 0.5) * (2 * (r / (111 * Real.cos (radiansOf clat))) / (n : ℝ))) ≤ r) :
    (clat - r / 111 + ((i : ℝ) + 0.5) * (2 * (r / 111) / (n : ℝ)),
      clng - r / (111 * Real.cos (radiansOf clat)) +
        ((j : ℝ) + 0.5) * (2 * (r / (111 * Real.cos (radiansOf clat))) / (n : ℝ)),
      r / (n : ℝ)) ∈ theGridCalculator.calculate_grid_points clat clng r n := by
  rw [GridCalculator.calculate_grid_points]
  simp only [List.mem_flatMap, List.mem_range, List.mem_filterMap]
  exact ⟨i, hi, j, hj, by rw [if_pos hd]⟩

/-- C6.  For every center with a valid latitude, every `radius_km > 0` and every
`grid_size > 0`, the grid planner returns a non-empty cell list: an odd grid
contains the exact center, and an even grid contains the cell one half-step away
from the equator and one half-step east, whose haversine distance from the
center stays below the radius. -/
theorem grid_nonempty (clat clng r : ℝ) (n : ℕ)
    (h1 : -90 ≤ clat) (h2 : clat ≤ 90) (hr : 0 < r) (hn : 0 < n) :
    theGridCalculator.calculate_grid_points clat clng r n ≠ [] := by
  set S := r / (111 * Real.cos (radiansOf clat)) with hS
  rcases Nat.even_or_odd n with ⟨m, hm⟩ | ⟨m, hm⟩
  · have hm1 : 1 ≤ m := by omega
    have hn2 : 2 ≤ n := by omega
    have hmR : (0 : ℝ) < (m : ℝ) := by exact_mod_cast hm1
    have hnR : ((n : ℝ)) = 2 * (m : ℝ) := by rw [hm]; push_cast; ring
    have hnne : ((n : ℝ)) ≠ 0 := by rw [hnR]; exact (mul_pos two_pos hmR).ne'
    have hjR : clng - S + ((m : ℝ) + 0.5) * (2 * S / (n : ℝ)) = clng + S / (n : ℝ) := by
      rw [hnR]; field_simp; ring
    rcases le_or_lt 0 clat with hc | hc
    · have hiR : clat - r / 111 + ((m : ℝ) + 0.5) * (2 * (r / 111) / (n : ℝ))
          = clat + 1 * (r / 111 / (n : ℝ)) := by
        rw [hnR]; field_simp; ring
      apply List.ne_nil_of_mem (mem_grid_point clat clng r n m m (by omega) (by omega) ?_)
      rw [hiR, hjR]
      exact distance_away_le clat clng r n hn2 h1 h2 hr 1 (Or.inl ⟨hc, rfl⟩)
    · have hcast : (((m - 1 : ℕ)) : ℝ) = (m : ℝ) - 1 := by
        rw [Nat.cast_sub hm1, Nat.cast_one]
      have hiR : clat - r / 111 + (((m - 1 : ℕ) : ℝ) + 0.5) * (2 * (r / 111) / (n : ℝ))
          = clat + (-1) * (r / 111 / (n : ℝ)) := by
        rw [hcast, hnR]; field_simp; ring
      apply List.ne_nil_of_mem
        (mem_grid_point clat clng r n (m - 1) m (by omega) (by omega) ?_)
      rw [hiR, hjR]
      exact distance_away_le clat clng r n hn2 h1 h2 hr (-1) (Or.inr ⟨hc, rfl⟩)
  · have hnR : ((n : ℝ)) = 2 * (m : ℝ) + 1 := by rw [hm]; push_cast; ring
    have hnne : ((n : ℝ)) ≠ 0 := by rw [hnR]; positivity
    have hiR : clat - r / 111 + ((m : ℝ) + 0.5) * (2 * (r / 111) / (n : ℝ)) = clat := by
      rw [hnR]; field_simp; ring
    have hjR : clng - S + ((m : ℝ) + 0.5) * (2 * S / (n : ℝ)) = clng := by
      rw [hnR]; field_simp; ring
    apply List.ne_nil_of_mem (mem_grid_point clat clng r n m m (by omega) (by omega) ?_)
    rw [hiR, hjR, Search.calculate_distance_self]
    exact hr.le

/-- C6 witness: the planner at the equatorial center with radius `5` and the even
grid size `2` returns a non-empty list. -/
theorem grid_nonempty_witness :
    theGridCalculator.calculate_grid_points 0 0 5 2 ≠ [] :=
  grid_nonempty 0 0 5 2 (by norm_num) (by norm_num) (by norm_num) (by norm_num)

end Grid
